import Mathlib

/-!
Verification of the repeatrom spaced-repetition engine.

This file gives a shallow embedding, in Lean 4, of the scheduling and
mastery-state-transition core of the repeatrom repository:

* the pure answer-transition function (src/data/answer-processor.ts),
* the in-memory storage adapter (src/data/data-layer-memory.ts), in
  particular getAvailableQuestions, getAllQuestions,
  refillTestPoolFromLatent, findNextQuestion, hideQuestion,
  updateQuestionStateWithPoolTransition, createCourse and resetCourse,
* the question validation helpers of the core data layer
  (DataLayer.validateQuestion / DataLayer.parseQuestionsJson),
* the older IndexedDB adapter findNextQuestion (data-layer-indexdb.ts),
  embedded in an error monad to reason about its failure semantics.

JavaScript numbers are modelled as Int (timestamps, durations, counts)
and as Rat (weights, penalties, and draws of Math.random).  Map objects
keyed by "courseId:questionId" are modelled as lists of records keyed by
the (course_id, question_id) pair; key-uniqueness, guaranteed by the Map
in the source, is an explicit hypothesis where a theorem needs it.
-/

namespace Repeatrom

/-- Pool tiers, from data-layer.ts: "latent" | "test" | "learned" | "master". -/
inductive Pool where
  | latent
  | test
  | learned
  | master
deriving DecidableEq, Repr

/-- Selection strategies: "oldest" | "recovery" | "random". -/
inductive SelectionStrategy where
  | oldest
  | recovery
  | random
deriving DecidableEq, Repr

/-- Event types of the audit log (data-layer.ts EventType union). -/
inductive EventType where
  | course_created
  | course_reset
  | latent_promotion
  | promotion
  | demotion
  | question_hidden
  | session_started
  | session_ended
  | user_interaction
deriving DecidableEq, Repr

/-- OriginalQuestion record (immutable question content). -/
structure OriginalQuestion where
  course_id : String
  id : Nat
  question : String
  options : List String
  correct_option : String
  explanation : String
deriving DecidableEq, Repr

/-- QuestionState record (mutable per-question progress). -/
structure QuestionState where
  course_id : String
  question_id : Nat
  pool : Pool
  last_shown : Option Int
  snooze_until : Option Int
  hidden : Bool
  notes : String
  consecutive_correct : Nat
  consecutive_incorrect : Nat
  total_interactions : Nat
  was_demoted : Bool
deriving DecidableEq, Repr

/-- CourseStats record: the redundant per-pool count cache. -/
structure CourseStats where
  id : String
  question_count : Int
  latent_count : Int
  test_count : Int
  learned_count : Int
  master_count : Int
deriving DecidableEq, Repr

/-- CourseMetadata record. -/
structure CourseMetadata where
  id : String
  name : String
  created_at : Int
  last_accessed : Int
deriving DecidableEq, Repr

/-- Configuration, with the fields read by answer-processor.ts and
data-layer-memory.ts (the DEFAULT_CONFIG shape of the in-memory layer). -/
structure Configuration where
  id : String
  test_pool_target_size : Nat
  snooze_incorrect_minutes : Int
  snooze_test_correct_minutes : Int
  snooze_learned_correct_hours : Int
  snooze_master_correct_days : Int
  pool_weight_test : Rat
  pool_weight_learned : Rat
  pool_weight_master : Rat
  pool_penalty_threshold : Rat
  strategy_oldest_pct : Rat
  strategy_demoted_pct : Rat
  promotion_consecutive_correct : Nat
  demotion_incorrect_count : Nat
  auto_next_correct : Bool
  auto_next_delay_ms : Int
deriving Repr

/-- LogEntry record of the audit log. -/
structure LogEntry where
  id : Nat
  course_id : String
  timestamp : Int
  type : EventType
  detail_question_id : Option Nat
deriving DecidableEq, Repr

/-- NextQuestionResult: the scheduling result handed back to the caller. -/
structure NextQuestionResult where
  question : OriginalQuestion
  state : QuestionState
  strategy : SelectionStrategy
deriving DecidableEq, Repr

/-- A promotion/demotion event emitted by processAnswerPure; the TS details
record \x7bquestion_id, from, to\x7d is flattened into named fields. -/
structure AnswerEvent where
  type : EventType
  question_id : Nat
  fromPool : Pool
  toPool : Pool
deriving DecidableEq, Repr

/-- The Partial QuestionState update record built by processAnswerPure.
All fields the source always writes are plain; was_demoted, written only
conditionally, is an Option (none = key absent). -/
structure StateUpdates where
  pool : Pool
  last_shown : Int
  snooze_until : Int
  consecutive_correct : Nat
  consecutive_incorrect : Nat
  total_interactions : Nat
  was_demoted : Option Bool
deriving DecidableEq, Repr

/-- AnswerResult (answer-processor.ts). -/
structure AnswerResult where
  correct : Bool
  newPool : Pool
  oldPool : Pool
  snoozeUntil : Int
  snoozeDurationMinutes : Int
  stateUpdates : StateUpdates
  needsTestPoolRefill : Bool
  events : List AnswerEvent
deriving DecidableEq, Repr

/-- DataLayer.hoursToMinutes. -/
def hoursToMinutes (hours : Int) : Int := hours * 60

/-- DataLayer.daysToMinutes. -/
def daysToMinutes (days : Int) : Int := days * 24 * 60

/-- DataLayer.calculateSnoozeUntil. -/
def calculateSnoozeUntil (currentTime : Int) (durationMinutes : Int) : Int :=
  currentTime + durationMinutes * 60 * 1000

/-- DataLayer.isQuestionSnoozed. -/
def isQuestionSnoozed (state : QuestionState) (currentTime : Int) : Bool :=
  match state.snooze_until with
  | none => false
  | some t => decide (currentTime < t)

/-- processAnswerPure (answer-processor.ts).  The mutable locals
(snoozeDurationMinutes, newPool, newConsecutiveCorrect,
newConsecutiveIncorrect, wasDemotedReset, needsTestPoolRefill, events)
are threaded as one tuple computed by the branch structure of the source. -/
def processAnswerPure (result : NextQuestionResult) (selectedAnswer : String)
    (config : Configuration) (now : Int) : AnswerResult :=
  let correct : Bool := decide (selectedAnswer = result.question.correct_option)
  let state := result.state
  let pool := state.pool
  let step : Int × Pool × Nat × Nat × Bool × Bool × List AnswerEvent :=
    if correct then
      let cc := state.consecutive_correct + 1
      match pool with
      | .test =>
        if cc ≥ config.promotion_consecutive_correct then
          (config.snooze_test_correct_minutes, .learned, 0, 0, true, true,
            [⟨.promotion, state.question_id, .test, .learned⟩])
        else
          (config.snooze_test_correct_minutes, pool, cc, 0, false, false, [])
      | .learned =>
        if cc ≥ config.promotion_consecutive_correct then
          (hoursToMinutes config.snooze_learned_correct_hours, .master, 0, 0,
            true, false, [⟨.promotion, state.question_id, .learned, .master⟩])
        else
          (hoursToMinutes config.snooze_learned_correct_hours, pool, cc, 0,
            false, false, [])
      | _ =>
        (daysToMinutes config.snooze_master_correct_days, pool, cc, 0,
          false, false, [])
    else
      let ci := state.consecutive_incorrect + 1
      if pool = .master ∧ ci ≥ config.demotion_incorrect_count then
        (config.snooze_incorrect_minutes, .learned, 0, 0, false, false,
          [⟨.demotion, state.question_id, .master, .learned⟩])
      else if pool = .learned ∧ ci ≥ config.demotion_incorrect_count then
        (config.snooze_incorrect_minutes, .test, 0, 0, false, false,
          [⟨.demotion, state.question_id, .learned, .test⟩])
      else
        (config.snooze_incorrect_minutes, pool, 0, ci, false, false, [])
  let snoozeDurationMinutes := step.1
  let newPool := step.2.1
  let newConsecutiveCorrect := step.2.2.1
  let newConsecutiveIncorrect := step.2.2.2.1
  let wasDemotedReset := step.2.2.2.2.1
  let needsTestPoolRefill := step.2.2.2.2.2.1
  let events := step.2.2.2.2.2.2
  let snoozeUntil := calculateSnoozeUntil now snoozeDurationMinutes
  let wasDemoted : Bool :=
    !correct && decide (newPool ≠ pool) &&
      (decide (pool = .master) || decide (pool = .learned))
  { correct := correct
    newPool := newPool
    oldPool := pool
    snoozeUntil := snoozeUntil
    snoozeDurationMinutes := snoozeDurationMinutes
    stateUpdates :=
      { pool := newPool
        last_shown := now
        snooze_until := snoozeUntil
        consecutive_correct := newConsecutiveCorrect
        consecutive_incorrect := newConsecutiveIncorrect
        total_interactions := state.total_interactions + 1
        was_demoted :=
          if wasDemoted then some true
          else if wasDemotedReset then some false
          else none }
    needsTestPoolRefill := needsTestPoolRefill
    events := events }

/-- JSON-like values, the input domain of parseQuestionsJson (TS unknown). -/
inductive JValue where
  | null
  | bool (b : Bool)
  | num (n : Int)
  | str (s : String)
  | arr (xs : List JValue)
  | obj (fields : List (String × JValue))

mutual

/-- The JavaScript String(x) coercion, restricted to the value forms of
JValue (arrays join their elements with commas, objects print as
[object Object]). -/
def jsToString : JValue → String
  | .null => "null"
  | .bool true => "true"
  | .bool false => "false"
  | .num n => toString n
  | .str s => s
  | .arr xs => String.intercalate "," (jsToStringList xs)
  | .obj _ => "[object Object]"

def jsToStringList : List JValue → List String
  | [] => []
  | x :: xs => jsToString x :: jsToStringList xs

end

/-- Property access q.k on a JS value: a missing key, or access on a
non-object, yields undefined, collapsed to null here (both fail every
typeof check validateQuestion performs). -/
def jGet : JValue → String → JValue
  | .obj fields, k => ((fields.find? (fun p => decide (p.1 = k))).map Prod.snd).getD .null
  | _, _ => .null

/-- JS typeof x === "object" (true for objects, arrays and null). -/
def jsTypeofObject : JValue → Bool
  | .obj _ => true
  | .arr _ => true
  | .null => true
  | _ => false

/-- question === null. -/
def jsIsNull : JValue → Bool
  | .null => true
  | _ => false

/-- options.includes(correct_option) for a string correct_option:
SameValueZero against a string primitive holds exactly for that string. -/
def jsIncludesStr (opts : List JValue) (co : String) : Bool :=
  opts.any (fun o =>
    match o with
    | JValue.str s => decide (s = co)
    | _ => false)

/-- String.prototype.trim, modelled directly on the character list so that
it evaluates in the kernel. -/
def jsTrim (s : String) : String :=
  ⟨((s.data.dropWhile Char.isWhitespace).reverse.dropWhile Char.isWhitespace).reverse⟩

/-- A per-question validation error of parseQuestionsJson. -/
structure ValidationError where
  index : Nat
  reason : String
deriving DecidableEq, Repr

/-- DataLayer.validateQuestion (data-layer.ts): none means valid, some e
carries the error string.  The Set-size duplicate test is the number of
distinct String-coerced options. -/
def validateQuestion (question : JValue) : Option String :=
  if !(jsTypeofObject question) || jsIsNull question then
    some "Question must be an object"
  else
    match jGet question "question" with
    | JValue.str qs =>
      if jsTrim qs = "" then some "Missing or invalid 'question' field"
      else
        match jGet question "options" with
        | JValue.arr opts =>
          if opts.length < 2 then
            some "Options must be an array with at least 2 items"
          else if (opts.map jsToString).dedup.length ≠ opts.length then
            some "Options must not contain duplicates"
          else
            match jGet question "correct_option" with
            | JValue.str co =>
              match jGet question "explanation" with
              | JValue.str _ =>
                if jsIncludesStr opts co then none
                else some "correct_option must match one of the options exactly"
              | _ => some "Missing or invalid 'explanation' field"
            | _ => some "Missing or invalid 'correct_option' field"
        | _ => some "Options must be an array with at least 2 items"
    | _ => some "Missing or invalid 'question' field"

/-- The forEach loop of parseQuestionsJson: valid items are collected in
order, invalid ones are reported with their index and reason. -/
def parseQuestionsLoop : Nat → List JValue → List JValue × List ValidationError
  | _, [] => ([], [])
  | i, item :: rest =>
    let tail := parseQuestionsLoop (i + 1) rest
    match validateQuestion item with
    | none => (item :: tail.1, tail.2)
    | some e => (tail.1, ⟨i, e⟩ :: tail.2)

/-- DataLayer.parseQuestionsJson. -/
def parseQuestionsJson : JValue → List JValue × List ValidationError
  | JValue.arr items => parseQuestionsLoop 0 items
  | _ => ([], [⟨0, "Input must be an array"⟩])

/-- The claim's acceptance rule, written from the spec's words: non-empty
question text, at least 2 unique options, a correct_option exactly equal
to one of the options, and an explanation string. -/
def specValidQuestion (j : JValue) : Prop :=
  ∃ (qt : String) (opts : List JValue) (co : String) (ex : String),
    jGet j "question" = JValue.str qt ∧ jsTrim qt ≠ "" ∧
    jGet j "options" = JValue.arr opts ∧ 2 ≤ opts.length ∧ opts.Nodup ∧
    jGet j "correct_option" = JValue.str co ∧ JValue.str co ∈ opts ∧
    jGet j "explanation" = JValue.str ex

/-- Interaction log record. -/
structure Interaction where
  id : Nat
  course_id : String
  question_id : Nat
  timestamp : Int
  answer_given : String
  correct : Bool
  snooze_duration : Int
  selection_strategy : SelectionStrategy
  pool_at_time : Pool
deriving DecidableEq, Repr

/-- CourseCreationResult. -/
structure CourseCreationResult where
  course_id : String
  total_loaded : Nat
  total_skipped : Nat
  validation_errors : List ValidationError
deriving DecidableEq, Repr

/-- The InMemoryDatabase state.  The TS Maps keyed by courseId (stats,
metadata) or by the pair courseId:questionId (questions, states) are lists
of records carrying their keys. -/
structure MemDB where
  courseMetadata : List CourseMetadata
  courseStats : List CourseStats
  questions : List OriginalQuestion
  questionStates : List QuestionState
  interactions : List Interaction
  logs : List LogEntry
  config : Configuration
  nextInteractionId : Nat
  nextLogId : Nat
  uuidCounter : Nat
deriving Repr

/-- The Map key "courseId:questionId" of a question state. -/
def stateKey (s : QuestionState) : String × Nat := (s.course_id, s.question_id)

/-- Key uniqueness of the questionStates map, guaranteed by the TS Map. -/
def WellFormedStates (db : MemDB) : Prop :=
  (db.questionStates.map stateKey).Nodup

/-- courseStats.get(courseId). -/
def getCourseStats? (db : MemDB) (courseId : String) : Option CourseStats :=
  db.courseStats.find? (fun s => decide (s.id = courseId))

/-- courseStats.set(courseId, stats) for an existing course entry. -/
def setCourseStats (db : MemDB) (courseId : String) (stats : CourseStats) : MemDB :=
  { db with courseStats :=
      db.courseStats.map (fun s => if s.id = courseId then stats else s) }

/-- getQuestion. -/
def getQuestion (db : MemDB) (courseId : String) (questionId : Nat) :
    Option OriginalQuestion :=
  db.questions.find? (fun x => decide (x.course_id = courseId ∧ x.id = questionId))

/-- questionStates.get(key(courseId, questionId)). -/
def findState (db : MemDB) (courseId : String) (questionId : Nat) :
    Option QuestionState :=
  db.questionStates.find? (fun s =>
    decide (s.course_id = courseId ∧ s.question_id = questionId))

/-- getAllQuestions: every state of the course in the pool. -/
def getAllQuestions (db : MemDB) (courseId : String) (pool : Pool) :
    List QuestionState :=
  db.questionStates.filter (fun s => decide (s.course_id = courseId ∧ s.pool = pool))

/-- snooze_until === null || snooze_until <= now. -/
def snoozeOk (snooze : Option Int) (now : Int) : Bool :=
  match snooze with
  | none => true
  | some t => decide (t ≤ now)

/-- getAvailableQuestions: not hidden and not currently snoozed. -/
def getAvailableQuestions (db : MemDB) (now : Int) (courseId : String) (pool : Pool) :
    List QuestionState :=
  db.questionStates.filter (fun s =>
    decide (s.course_id = courseId ∧ s.pool = pool) && !s.hidden &&
      snoozeOk s.snooze_until now)

/-- questionStates.set(key, \x7b...s, pool: "test"\x7d): one iteration of the
promote loop of refillTestPoolFromLatent. -/
def setPoolTest (states : List QuestionState) (courseId : String) (questionId : Nat) :
    List QuestionState :=
  states.map (fun s =>
    if s.course_id = courseId ∧ s.question_id = questionId then
      { s with pool := Pool.test }
    else s)

/-- refillTestPoolFromLatent (data-layer-memory.ts): top up the Test pool
from the non-hidden Latent questions in ascending question_id order.
The in-place stable Array.prototype.sort is modelled by insertionSort. -/
def refillTestPoolFromLatent (db : MemDB) (now : Int) (courseId : String) :
    MemDB × Nat :=
  let config := db.config
  let testQuestions := getAllQuestions db courseId Pool.test
  let actualTestCount := (testQuestions.filter (fun q => !q.hidden)).length
  if actualTestCount ≥ config.test_pool_target_size then (db, 0)
  else
    let latentAll := getAllQuestions db courseId Pool.latent
    let latentAvailable := latentAll.filter (fun s => !s.hidden)
    if latentAvailable.isEmpty then (db, 0)
    else
      let sortedLatent :=
        latentAvailable.insertionSort (fun a b => a.question_id ≤ b.question_id)
      let toPromote :=
        min sortedLatent.length (config.test_pool_target_size - actualTestCount)
      if toPromote = 0 then (db, 0)
      else
        let promoted := sortedLatent.take toPromote
        let newStates := promoted.foldl
          (fun st q => setPoolTest st courseId q.question_id) db.questionStates
        let db1 := { db with questionStates := newStates }
        let db2 :=
          match getCourseStats? db courseId with
          | some stats =>
            setCourseStats db1 courseId
              { stats with
                  latent_count := stats.latent_count - (toPromote : Int)
                  test_count := stats.test_count + (toPromote : Int) }
          | none => db1
        let newLogs := promoted.enum.map (fun p =>
          LogEntry.mk (db.nextLogId + p.1) courseId now EventType.promotion
            (some p.2.question_id))
        ({ db2 with logs := db2.logs ++ newLogs,
                    nextLogId := db2.nextLogId + toPromote }, toPromote)

/-- The base weights record of findNextQuestion; latent is never drawn
from, so its entry is never read (0 here). -/
def baseWeight (config : Configuration) : Pool → Rat
  | .test => config.pool_weight_test
  | .learned => config.pool_weight_learned
  | .master => config.pool_weight_master
  | .latent => 0

/-- penalty = 1 when enough questions are available, else length/threshold. -/
def penaltyFor (config : Configuration) (availLen : Nat) : Rat :=
  if (availLen : Rat) ≥ config.pool_penalty_threshold then 1
  else (availLen : Rat) / config.pool_penalty_threshold

/-- One entry of the poolData array of findNextQuestion. -/
structure PoolEntry where
  pool : Pool
  available : List QuestionState
  weight : Rat

/-- The poolData construction loop: pools with no available questions are
skipped, the rest get weight = baseWeight * penalty. -/
def poolEntries (db : MemDB) (now : Int) (courseId : String) : List PoolEntry :=
  [Pool.test, Pool.learned, Pool.master].filterMap (fun p =>
    if (getAvailableQuestions db now courseId p).isEmpty then none
    else some ⟨p, getAvailableQuestions db now courseId p,
      baseWeight db.config p *
        penaltyFor db.config (getAvailableQuestions db now courseId p).length⟩)

/-- totalWeight = poolData.reduce((sum, p) => sum + p.weight, 0). -/
def totalWeight (entries : List PoolEntry) : Rat := (entries.map (·.weight)).sum

/-- The cumulative-weight walk of the roulette selection; returns the
first entry whose cumulative weight exceeds rand, if any. -/
def rouletteWalk (rand : Rat) (cum : Rat) : List PoolEntry → Option PoolEntry
  | [] => none
  | e :: rest =>
    if rand < cum + e.weight then some e else rouletteWalk rand (cum + e.weight) rest

/-- (a.last_shown ?? Infinity) < (b.last_shown ?? Infinity): a null
last_shown coerces to Infinity, which is never smaller. -/
def lastShownLt (a b : Option Int) : Bool :=
  match a, b with
  | some x, some y => decide (x < y)
  | some _, none => true
  | none, _ => false

/-- available.reduce((prev, curr) => lt ? prev : curr) over a list. -/
def reduceOldest : List QuestionState → Option QuestionState
  | [] => none
  | x :: xs =>
    some (xs.foldl
      (fun prev curr => if lastShownLt prev.last_shown curr.last_shown then prev else curr) x)

/-- available[Math.floor(r * available.length)] as a JS index access:
negative or out-of-range indices yield undefined (none). -/
def jsIndex {α : Type} (l : List α) (i : Int) : Option α :=
  if i < 0 then none else l[i.toNat]?

/-- The strategy-mix block of findNextQuestion: oldest below
strategy_oldest_pct, recovery (falling back to random when no demoted
question is available) below oldest+demoted, else random; a random pick
indexes the available list with the third draw. -/
def pickByStrategy (config : Configuration) (available : List QuestionState)
    (r2 r3 : Rat) : SelectionStrategy × Option QuestionState :=
  let strategyRand := r2 * 100
  let pre : SelectionStrategy × Option QuestionState :=
    if strategyRand < config.strategy_oldest_pct then
      (.oldest, reduceOldest available)
    else if strategyRand < config.strategy_oldest_pct + config.strategy_demoted_pct then
      if (available.filter (fun s => s.was_demoted)).isEmpty then (.random, none)
      else (.recovery, reduceOldest (available.filter (fun s => s.was_demoted)))
    else (.random, none)
  if pre.1 = SelectionStrategy.random ∨ pre.2.isNone then
    (pre.1, jsIndex available ⌊r3 * (available.length : Rat)⌋)
  else pre

/-- The read-only selection phase of findNextQuestion, run after the
refill: pool roulette (draw r1), strategy mix (draw r2), random index
(draw r3). -/
def selectQuestion (db : MemDB) (now : Int) (r1 r2 r3 : Rat) (courseId : String) :
    Option NextQuestionResult :=
  match poolEntries db now courseId with
  | [] => none
  | e0 :: rest =>
    let chosen := (rouletteWalk (r1 * totalWeight (e0 :: rest)) 0 (e0 :: rest)).getD e0
    match pickByStrategy db.config chosen.available r2 r3 with
    | (_, none) => none
    | (strategy, some sel) =>
      match getQuestion db courseId sel.question_id with
      | none => none
      | some q => some { question := q, state := sel, strategy := strategy }

/-- findNextQuestion (data-layer-memory.ts): the refill step runs first
and is the only mutation; the selection phase only reads the state. -/
def findNextQuestion (db : MemDB) (now : Int) (r1 r2 r3 : Rat) (courseId : String) :
    MemDB × Option NextQuestionResult :=
  let db1 := (refillTestPoolFromLatent db now courseId).1
  (db1, selectQuestion db1 now r1 r2 r3 courseId)

/-- Adds d to the counter of pool p (the stats[`${pool}_count`] update). -/
def adjustPoolCount (stats : CourseStats) (p : Pool) (d : Int) : CourseStats :=
  match p with
  | .latent => { stats with latent_count := stats.latent_count + d }
  | .test => { stats with test_count := stats.test_count + d }
  | .learned => { stats with learned_count := stats.learned_count + d }
  | .master => { stats with master_count := stats.master_count + d }

/-- hideQuestion (data-layer-memory.ts): set hidden, decrement the pool
count and the total count, log, and refill when the question sat in Test. -/
def hideQuestion (db : MemDB) (now : Int) (courseId : String) (questionId : Nat) :
    MemDB :=
  match findState db courseId questionId with
  | none => db
  | some s =>
    let wasTestPool := s.pool = Pool.test
    let db1 := { db with questionStates := db.questionStates.map (fun t =>
        if t.course_id = courseId ∧ t.question_id = questionId then
          { t with hidden := true }
        else t) }
    let db2 :=
      match getCourseStats? db1 courseId with
      | some stats =>
        setCourseStats db1 courseId
          { adjustPoolCount stats s.pool (-1) with
              question_count := stats.question_count - 1 }
      | none => db1
    let db3 := { db2 with
      logs := db2.logs ++
        [LogEntry.mk db2.nextLogId courseId now EventType.question_hidden (some questionId)]
      nextLogId := db2.nextLogId + 1 }
    if wasTestPool then (refillTestPoolFromLatent db3 now courseId).1 else db3

/-- The store hideQuestion builds before its conditional refill: hidden
flag set, pool counter and question_count decremented, event logged. -/
def hideQuestionBase (db : MemDB) (now : Int) (courseId : String) (questionId : Nat)
    (s : QuestionState) (stats : CourseStats) : MemDB :=
  { db with
    questionStates := db.questionStates.map (fun t =>
      if t.course_id = courseId ∧ t.question_id = questionId then
        { t with hidden := true }
      else t)
    courseStats := db.courseStats.map (fun v =>
      if v.id = courseId then
        { adjustPoolCount stats s.pool (-1) with
          question_count := stats.question_count - 1 }
      else v)
    logs := db.logs ++
      [LogEntry.mk db.nextLogId courseId now EventType.question_hidden (some questionId)]
    nextLogId := db.nextLogId + 1 }

/-- A Partial QuestionState: none means the key is absent from the
update record. -/
structure QuestionStateUpdates where
  course_id : Option String := none
  question_id : Option Nat := none
  pool : Option Pool := none
  last_shown : Option (Option Int) := none
  snooze_until : Option (Option Int) := none
  hidden : Option Bool := none
  notes : Option String := none
  consecutive_correct : Option Nat := none
  consecutive_incorrect : Option Nat := none
  total_interactions : Option Nat := none
  was_demoted : Option Bool := none
deriving DecidableEq, Repr

/-- The object spread \x7b...s, ...updates\x7d. -/
def applyUpdates (s : QuestionState) (u : QuestionStateUpdates) : QuestionState :=
  { course_id := u.course_id.getD s.course_id
    question_id := u.question_id.getD s.question_id
    pool := u.pool.getD s.pool
    last_shown := u.last_shown.getD s.last_shown
    snooze_until := u.snooze_until.getD s.snooze_until
    hidden := u.hidden.getD s.hidden
    notes := u.notes.getD s.notes
    consecutive_correct := u.consecutive_correct.getD s.consecutive_correct
    consecutive_incorrect := u.consecutive_incorrect.getD s.consecutive_incorrect
    total_interactions := u.total_interactions.getD s.total_interactions
    was_demoted := u.was_demoted.getD s.was_demoted }

/-- updateQuestionStateWithPoolTransition: write the state update and move
one unit between the two pool counters when the pool changed. -/
def updateQuestionStateWithPoolTransition (db : MemDB) (courseId : String)
    (questionId : Nat) (u : QuestionStateUpdates) (oldPool newPool : Pool) : MemDB :=
  let db1 := { db with questionStates := db.questionStates.map (fun s =>
      if s.course_id = courseId ∧ s.question_id = questionId then applyUpdates s u
      else s) }
  if oldPool ≠ newPool then
    match getCourseStats? db1 courseId with
    | some stats =>
      setCourseStats db1 courseId
        (adjustPoolCount (adjustPoolCount stats oldPool (-1)) newPool 1)
    | none => db1
  else db1

/-- String(q.field) extraction used when createCourse materialises a
validated JSON question. -/
def toOriginalQuestion (courseId : String) (qid : Nat) (q : JValue) : OriginalQuestion :=
  { course_id := courseId
    id := qid
    question := jsToString (jGet q "question")
    options :=
      match jGet q "options" with
      | JValue.arr xs => xs.map jsToString
      | v => [jsToString v]
    correct_option := jsToString (jGet q "correct_option")
    explanation := jsToString (jGet q "explanation") }

/-- The freshly created QuestionState: pool latent, all counters zero. -/
def initialQuestionState (courseId : String) (qid : Nat) : QuestionState :=
  { course_id := courseId, question_id := qid, pool := Pool.latent
    last_shown := none, snooze_until := none, hidden := false, notes := ""
    consecutive_correct := 0, consecutive_incorrect := 0
    total_interactions := 0, was_demoted := false }

/-- createCourse (data-layer-memory.ts): fails on a duplicate name, loads
the valid questions numbered from 1, and initialises the stats cache. -/
def createCourse (db : MemDB) (now : Int) (name : String) (questionsJson : JValue) :
    Except String (MemDB × CourseCreationResult) :=
  if db.courseMetadata.any (fun m => decide (m.name = name)) then
    Except.error "A course with this name already exists."
  else
    let uuid := db.uuidCounter + 1
    let courseId := "test-" ++ toString uuid
    let parsed := parseQuestionsJson questionsJson
    let questions := parsed.1
    let errors := parsed.2
    let meta : CourseMetadata := ⟨courseId, name, now, now⟩
    let stats : CourseStats :=
      ⟨courseId, (questions.length : Int), (questions.length : Int), 0, 0, 0⟩
    let newQs := questions.enum.map (fun p => toOriginalQuestion courseId (p.1 + 1) p.2)
    let newStates := questions.enum.map (fun p => initialQuestionState courseId (p.1 + 1))
    Except.ok
      ({ db with
          courseMetadata := db.courseMetadata ++ [meta]
          courseStats := db.courseStats ++ [stats]
          questions := db.questions ++ newQs
          questionStates := db.questionStates ++ newStates
          logs := db.logs ++
            [LogEntry.mk db.nextLogId courseId now EventType.course_created none]
          nextLogId := db.nextLogId + 1
          uuidCounter := uuid },
        { course_id := courseId
          total_loaded := questions.length
          total_skipped := errors.length
          validation_errors := errors })

/-- resetCourse (data-layer-memory.ts). -/
def resetCourse (db : MemDB) (now : Int) (courseId : String) : MemDB :=
  match getCourseStats? db courseId with
  | none => db
  | some stats =>
    let states := db.questionStates.map (fun s =>
      if s.course_id = courseId then
        { s with pool := Pool.latent, last_shown := none, snooze_until := none
                 hidden := false, notes := "", consecutive_correct := 0
                 consecutive_incorrect := 0, total_interactions := 0
                 was_demoted := false }
      else s)
    let db1 := { db with
      questionStates := states
      interactions := db.interactions.filter (fun i => decide (i.course_id ≠ courseId))
      logs := db.logs.filter (fun l => decide (l.course_id ≠ courseId)) }
    let db2 := setCourseStats db1 courseId
      { stats with latent_count := stats.question_count, test_count := 0
                   learned_count := 0, master_count := 0 }
    { db2 with
      logs := db2.logs ++ [LogEntry.mk db2.nextLogId courseId now EventType.course_reset none]
      nextLogId := db2.nextLogId + 1 }

/-- The per-course stats cache invariant: the four pool counters sum to
the question count. -/
def statsInvariant (s : CourseStats) : Prop :=
  s.latent_count + s.test_count + s.learned_count + s.master_count = s.question_count

/-- The Configuration shape the IndexedDB snapshot reads
(percentage-threshold pool selection). -/
structure LegacyConfiguration where
  id : String
  test_pool_target_size : Int
  latent_promotion_threshold : Int
  snooze_incorrect_minutes : Int
  snooze_test_correct_minutes : Int
  snooze_learned_correct_hours : Int
  snooze_master_correct_days : Int
  pool_selection_test_upper : Rat
  pool_selection_learned_upper : Rat
  strategy_oldest_upper : Rat
  strategy_recovery_upper : Rat
  promotion_consecutive_correct : Nat
  demotion_incorrect_count : Nat
deriving Repr

/-- The IndexedDB stores consulted by its findNextQuestion. -/
structure IdbDB where
  config : Option LegacyConfiguration
  courses : List CourseStats
  questions : List OriginalQuestion
  questionStates : List QuestionState
  logs : List LogEntry
  nextLogId : Nat
deriving Repr

/-- IndexedDBLayer.getConfig: rejects when the global record is missing. -/
def idbGetConfig (db : IdbDB) : Except String LegacyConfiguration :=
  match db.config with
  | none => Except.error "Config not found"
  | some c => Except.ok c

/-- IndexedDBLayer.getCourseStats: rejects when the course is unknown. -/
def idbGetCourseStats (db : IdbDB) (courseId : String) : Except String CourseStats :=
  match db.courses.find? (fun s => decide (s.id = courseId)) with
  | none => Except.error ("Course " ++ courseId ++ " not found")
  | some s => Except.ok s

/-- IndexedDBLayer.getQuestion. -/
def idbGetQuestion (db : IdbDB) (courseId : String) (questionId : Nat) :
    Option OriginalQuestion :=
  db.questions.find? (fun x => decide (x.course_id = courseId ∧ x.id = questionId))

/-- IndexedDBLayer.getAvailableQuestions: the course_id_pool index fetch
followed by the hidden/snooze filter. -/
def idbGetAvailableQuestions (db : IdbDB) (now : Int) (courseId : String) (pool : Pool) :
    List QuestionState :=
  (db.questionStates.filter (fun s =>
    decide (s.course_id = courseId ∧ s.pool = pool))).filter
      (fun s => !s.hidden && snoozeOk s.snooze_until now)

/-- updateQuestionState(courseId, qid, \x7bpool: "test"\x7d) of the idb refill loop. -/
def idbSetPoolTest (states : List QuestionState) (courseId : String) (questionId : Nat) :
    List QuestionState :=
  states.map (fun s =>
    if s.course_id = courseId ∧ s.question_id = questionId then
      { s with pool := Pool.test }
    else s)

/-- The fallback for-loop of the idb findNextQuestion: first of
test/learned/master with available questions; when all are empty the last
looked-up (empty) list remains. -/
def idbFallback (db : IdbDB) (now : Int) (courseId : String) (dflt : Pool) :
    Pool × List QuestionState :=
  let hits := [Pool.test, Pool.learned, Pool.master].filterMap (fun p =>
    let a := idbGetAvailableQuestions db now courseId p
    if a.isEmpty then none else some (p, a))
  hits.headD (dflt, idbGetAvailableQuestions db now courseId Pool.master)

/-- findNextQuestion of the IndexedDB snapshot (data-layer-indexdb.ts),
in an error monad: getConfig and getCourseStats reject on missing data;
"no eligible question" is the ok-none value.  Draws: r1 pool selection,
r2 strategy, r3 recovery index, r4 random index. -/
def idbFindNextQuestion (db : IdbDB) (now : Int) (r1 r2 r3 r4 : Rat)
    (courseId : String) : Except String (IdbDB × Option NextQuestionResult) := do
  let config ← idbGetConfig db
  let stats ← idbGetCourseStats db courseId
  let db :=
    if stats.test_count < config.latent_promotion_threshold then
      let latentAvailable :=
        (idbGetAvailableQuestions db now courseId Pool.latent).insertionSort
          (fun a b => a.question_id ≤ b.question_id)
      let toPromote : Int :=
        min (latentAvailable.length : Int) (config.test_pool_target_size - stats.test_count)
      let promoted := latentAvailable.take toPromote.toNat
      let promotedStates := promoted.foldl
        (fun st q => idbSetPoolTest st courseId q.question_id) db.questionStates
      let db1 := { db with questionStates := promotedStates }
      if toPromote > 0 then
        { db1 with
            courses := db1.courses.map (fun s =>
              if s.id = courseId then
                { s with latent_count := s.latent_count - toPromote,
                         test_count := s.test_count + toPromote }
              else s)
            logs := db1.logs ++
              [LogEntry.mk db1.nextLogId courseId now EventType.latent_promotion none]
            nextLogId := db1.nextLogId + 1 }
      else db1
    else db
  let rand := r1 * 100
  let selectedPool : Pool :=
    if rand < config.pool_selection_test_upper then Pool.test
    else if rand < config.pool_selection_learned_upper then Pool.learned
    else Pool.master
  let available := idbGetAvailableQuestions db now courseId selectedPool
  let fb : Pool × List QuestionState :=
    if available.isEmpty then idbFallback db now courseId selectedPool
    else (selectedPool, available)
  let available := fb.2
  if available.isEmpty then return (db, none)
  let strategyRand := r2 * 100
  let pre : SelectionStrategy × Option QuestionState :=
    if strategyRand < config.strategy_oldest_upper then
      (.oldest, reduceOldest available)
    else if strategyRand < config.strategy_recovery_upper then
      let recovered := available.filter (fun s => s.was_demoted)
      if recovered.isEmpty then (.random, none)
      else (.recovery, jsIndex recovered ⌊r3 * (recovered.length : Rat)⌋)
    else (.random, none)
  let strategy := pre.1
  let selected : Option QuestionState :=
    if strategy = SelectionStrategy.random ∨ pre.2.isNone then
      jsIndex available ⌊r4 * (available.length : Rat)⌋
    else pre.2
  match selected with
  | none => return (db, none)
  | some sel =>
    match idbGetQuestion db courseId sel.question_id with
    | none => return (db, none)
    | some q => return (db, some { question := q, state := sel, strategy := strategy })

/-- A concrete question used by the closed witness theorems. -/
def sampleQuestion : OriginalQuestion :=
  { course_id := "c1", id := 1, question := "2+2?"
    options := ["4", "5"], correct_option := "4", explanation := "arith" }

/-- A concrete Test-pool state (one correct answer already recorded). -/
def sampleTestState : QuestionState :=
  { course_id := "c1", question_id := 1, pool := .test
    last_shown := some 100, snooze_until := none, hidden := false
    notes := "", consecutive_correct := 1, consecutive_incorrect := 0
    total_interactions := 1, was_demoted := false }

/-- The DEFAULT_CONFIG of the in-memory layer. -/
def defaultConfig : Configuration :=
  { id := "global", test_pool_target_size := 40
    snooze_incorrect_minutes := 1, snooze_test_correct_minutes := 5
    snooze_learned_correct_hours := 1, snooze_master_correct_days := 2
    pool_weight_test := 12, pool_weight_learned := 4, pool_weight_master := 1
    pool_penalty_threshold := 8, strategy_oldest_pct := 30
    strategy_demoted_pct := 30, promotion_consecutive_correct := 2
    demotion_incorrect_count := 1, auto_next_correct := false
    auto_next_delay_ms := 1000 }

/-- A concrete scheduling result whose state sits in the Test pool. -/
def sampleTestResult : NextQuestionResult :=
  { question := sampleQuestion, state := sampleTestState, strategy := .oldest }

/-- A one-question course sitting in the Test pool, used by witnesses. -/
def witnessState : QuestionState :=
  { course_id := "c", question_id := 1, pool := Pool.test
    last_shown := none, snooze_until := none, hidden := false, notes := ""
    consecutive_correct := 0, consecutive_incorrect := 0
    total_interactions := 0, was_demoted := false }

/-- A concrete in-memory database with one Test question, target size 1. -/
def witnessDB : MemDB :=
  { courseMetadata := [⟨"c", "course", 0, 0⟩]
    courseStats := [⟨"c", 1, 0, 1, 0, 0⟩]
    questions := [⟨"c", 1, "q1", ["A", "B"], "A", "e"⟩]
    questionStates := [witnessState]
    interactions := []
    logs := []
    config := { defaultConfig with test_pool_target_size := 1 }
    nextInteractionId := 1
    nextLogId := 1
    uuidCounter := 1 }

/-- A never-shown available question (last_shown null). -/
def neverShownState : QuestionState :=
  { course_id := "c", question_id := 1, pool := Pool.test
    last_shown := none, snooze_until := none, hidden := false, notes := ""
    consecutive_correct := 0, consecutive_incorrect := 0
    total_interactions := 0, was_demoted := false }

/-- A question already shown at timestamp 5. -/
def shownState : QuestionState :=
  { course_id := "c", question_id := 2, pool := Pool.test
    last_shown := some 5, snooze_until := none, hidden := false, notes := ""
    consecutive_correct := 0, consecutive_incorrect := 0
    total_interactions := 0, was_demoted := false }

/-- The Test pool's non-hidden count value computed by the refill step. -/
def testNonHiddenCount (db : MemDB) (c : String) : Nat :=
  ((getAllQuestions db c Pool.test).filter (fun q => !q.hidden)).length

/-- The number of non-hidden Latent questions (refill candidates). -/
def latentNonHiddenCount (db : MemDB) (c : String) : Nat :=
  ((getAllQuestions db c Pool.latent).filter (fun s => !s.hidden)).length

/-- A course whose Test pool already exceeds the (lowered) target size:
two non-hidden Test questions against test_pool_target_size 1. -/
def overfullDB : MemDB :=
  { courseMetadata := [⟨"c", "course", 0, 0⟩]
    courseStats := [⟨"c", 2, 0, 2, 0, 0⟩]
    questions := [⟨"c", 1, "q1", ["A", "B"], "A", "e"⟩,
                  ⟨"c", 2, "q2", ["A", "B"], "A", "e"⟩]
    questionStates :=
      [{ course_id := "c", question_id := 1, pool := Pool.test, last_shown := none
         snooze_until := none, hidden := false, notes := "", consecutive_correct := 0
         consecutive_incorrect := 0, total_interactions := 0, was_demoted := false },
       { course_id := "c", question_id := 2, pool := Pool.test, last_shown := none
         snooze_until := none, hidden := false, notes := "", consecutive_correct := 0
         consecutive_incorrect := 0, total_interactions := 0, was_demoted := false }]
    interactions := [], logs := []
    config := { defaultConfig with test_pool_target_size := 1 }
    nextInteractionId := 1, nextLogId := 1, uuidCounter := 1 }

/-- An in-memory database with no questions at all. -/
def emptyMemDB : MemDB :=
  { courseMetadata := [], courseStats := [], questions := [], questionStates := []
    interactions := [], logs := [], config := defaultConfig
    nextInteractionId := 1, nextLogId := 1, uuidCounter := 0 }

/-- The default configuration seeded by the IndexedDB schema creation. -/
def legacyDefaultConfig : LegacyConfiguration :=
  { id := "global", test_pool_target_size := 39, latent_promotion_threshold := 38
    snooze_incorrect_minutes := 1, snooze_test_correct_minutes := 10
    snooze_learned_correct_hours := 24, snooze_master_correct_days := 7
    pool_selection_test_upper := 75, pool_selection_learned_upper := 95
    strategy_oldest_upper := 33, strategy_recovery_upper := 50
    promotion_consecutive_correct := 2, demotion_incorrect_count := 1 }

/-- An IndexedDB store with a configuration but no courses. -/
def emptyIdbDB : IdbDB :=
  { config := some legacyDefaultConfig, courses := [], questions := []
    questionStates := [], logs := [], nextLogId := 1 }

/-- A well-formed question object. -/
def c8good : JValue :=
  JValue.obj [("question", JValue.str "What is 1+1?"),
    ("options", JValue.arr [JValue.str "2", JValue.str "3"]),
    ("correct_option", JValue.str "2"),
    ("explanation", JValue.str "Basic addition.")]

/-- A second well-formed question object. -/
def c8good2 : JValue :=
  JValue.obj [("question", JValue.str "What is 2+2?"),
    ("options", JValue.arr [JValue.str "4", JValue.str "5"]),
    ("correct_option", JValue.str "4"),
    ("explanation", JValue.str "Also addition.")]

/-- A malformed entry: its options array has a single element. -/
def c8bad : JValue :=
  JValue.obj [("question", JValue.str "Broken?"),
    ("options", JValue.arr [JValue.str "only"]),
    ("correct_option", JValue.str "only"),
    ("explanation", JValue.str "e")]

/-- C1: with pool = test and a correct answer, when the incremented
consecutive-correct counter reaches promotion_consecutive_correct,
processAnswerPure promotes to learned with consecutive_correct reset to 0
and was_demoted written as false, requests a Test-pool refill, and emits
exactly the one promotion event from test to learned; when the threshold
is not reached the pool is unchanged and no event is emitted. -/
theorem processAnswerPure_test_promotion (result : NextQuestionResult)
    (config : Configuration) (now : Int) (ans : String)
    (hp : result.state.pool = Pool.test)
    (hc : ans = result.question.correct_option) :
    (result.state.consecutive_correct + 1 ≥ config.promotion_consecutive_correct →
      (processAnswerPure result ans config now).newPool = Pool.learned ∧
      (processAnswerPure result ans config now).stateUpdates.consecutive_correct = 0 ∧
      (processAnswerPure result ans config now).stateUpdates.was_demoted = some false ∧
      (processAnswerPure result ans config now).needsTestPoolRefill = true ∧
      (processAnswerPure result ans config now).events =
        [⟨EventType.promotion, result.state.question_id, Pool.test, Pool.learned⟩]) ∧
    (result.state.consecutive_correct + 1 < config.promotion_consecutive_correct →
      (processAnswerPure result ans config now).newPool = Pool.test ∧
      (processAnswerPure result ans config now).events = []) := by
  constructor
  · intro h
    simp [processAnswerPure, hp, hc, h]
  · intro h
    have h' : ¬ (result.state.consecutive_correct + 1 ≥
        config.promotion_consecutive_correct) := by omega
    simp [processAnswerPure, hp, hc, h']

/-- Witness for C1 at a concrete input (threshold reached). -/
theorem processAnswerPure_test_promotion_witness :
    sampleTestResult.state.pool = Pool.test ∧
    "4" = sampleTestResult.question.correct_option ∧
    sampleTestResult.state.consecutive_correct + 1 ≥
      defaultConfig.promotion_consecutive_correct ∧
    (processAnswerPure sampleTestResult "4" defaultConfig 200).newPool =
      Pool.learned := by
  refine ⟨rfl, rfl, by decide, ?_⟩
  exact ((processAnswerPure_test_promotion sampleTestResult defaultConfig 200 "4"
    rfl rfl).1 (by decide)).1

/-- C2: with pool = test and an incorrect answer, processAnswerPure keeps
the pool at test, emits no event, resets consecutive_correct to 0,
increments consecutive_incorrect, and applies snooze_incorrect_minutes,
for every configuration (in particular every demotion_incorrect_count). -/
theorem processAnswerPure_test_incorrect (result : NextQuestionResult)
    (config : Configuration) (now : Int) (ans : String)
    (hp : result.state.pool = Pool.test)
    (hc : ans ≠ result.question.correct_option) :
    (processAnswerPure result ans config now).newPool = Pool.test ∧
    (processAnswerPure result ans config now).events = [] ∧
    (processAnswerPure result ans config now).stateUpdates.consecutive_correct = 0 ∧
    (processAnswerPure result ans config now).stateUpdates.consecutive_incorrect =
      result.state.consecutive_incorrect + 1 ∧
    (processAnswerPure result ans config now).snoozeDurationMinutes =
      config.snooze_incorrect_minutes := by
  simp [processAnswerPure, hp, hc]

/-- Witness for C2 at a concrete input. -/
theorem processAnswerPure_test_incorrect_witness :
    sampleTestResult.state.pool = Pool.test ∧
    "5" ≠ sampleTestResult.question.correct_option ∧
    (processAnswerPure sampleTestResult "5" defaultConfig 200).newPool =
      Pool.test := by
  refine ⟨rfl, by decide, ?_⟩
  exact (processAnswerPure_test_incorrect sampleTestResult defaultConfig 200 "5"
    rfl (by decide)).1

/-- snoozeOk spelled out: null or an expiry at or before now. -/
theorem snoozeOk_iff {o : Option Int} {now : Int} :
    snoozeOk o now = true ↔ (o = none ∨ ∃ t, o = some t ∧ t ≤ now) := by
  cases o <;> simp [snoozeOk]

/-- Membership in getAvailableQuestions is exactly the availability filter
of the source. -/
theorem mem_getAvailableQuestions {db : MemDB} {now : Int} {courseId : String}
    {p : Pool} {s : QuestionState} :
    s ∈ getAvailableQuestions db now courseId p ↔
      s ∈ db.questionStates ∧ s.course_id = courseId ∧ s.pool = p ∧
        s.hidden = false ∧ snoozeOk s.snooze_until now = true := by
  simp [getAvailableQuestions, List.mem_filter, Bool.and_eq_true,
    decide_eq_true_eq, Bool.not_eq_true', and_assoc]

/-- The reduce of the oldest strategy stays inside its input list. -/
theorem foldlOldest_mem (l : List QuestionState) (a : QuestionState) :
    l.foldl (fun prev curr =>
      if lastShownLt prev.last_shown curr.last_shown then prev else curr) a = a ∨
    l.foldl (fun prev curr =>
      if lastShownLt prev.last_shown curr.last_shown then prev else curr) a ∈ l := by
  induction l generalizing a with
  | nil => exact Or.inl rfl
  | cons b l ih =>
    simp only [List.foldl_cons]
    rcases ih (if lastShownLt a.last_shown b.last_shown then a else b) with h | h
    · rw [h]
      by_cases hc : lastShownLt a.last_shown b.last_shown = true
      · rw [if_pos hc]; exact Or.inl rfl
      · rw [if_neg hc]; exact Or.inr (List.mem_cons_self b l)
    · exact Or.inr (List.mem_cons_of_mem b h)

theorem reduceOldest_mem {l : List QuestionState} {x : QuestionState}
    (h : reduceOldest l = some x) : x ∈ l := by
  cases l with
  | nil => simp [reduceOldest] at h
  | cons a l =>
    simp only [reduceOldest, Option.some.injEq] at h
    subst h
    rcases foldlOldest_mem l a with h2 | h2
    · rw [h2]; exact List.mem_cons_self a l
    · exact List.mem_cons_of_mem a h2

/-- The roulette walk only ever returns an element of its list. -/
theorem rouletteWalk_mem {rand : Rat} {l : List PoolEntry} {e : PoolEntry} :
    ∀ {cum : Rat}, rouletteWalk rand cum l = some e → e ∈ l := by
  induction l with
  | nil => intro cum h; simp [rouletteWalk] at h
  | cons a l ih =>
    intro cum h
    rw [rouletteWalk] at h
    by_cases hc : rand < cum + a.weight
    · rw [if_pos hc] at h
      cases h
      exact List.mem_cons_self _ _
    · rw [if_neg hc] at h
      exact List.mem_cons_of_mem a (ih h)

/-- A successful JS index access returns an element of the list. -/
theorem jsIndex_mem {α : Type} {l : List α} {i : Int} {x : α}
    (h : jsIndex l i = some x) : x ∈ l := by
  unfold jsIndex at h
  split at h
  · cases h
  · exact List.getElem?_mem h

/-- Every poolData entry holds the availability list of its pool, which is
non-empty, and the weight formula of the source. -/
theorem poolEntries_spec {db : MemDB} {now : Int} {courseId : String} {e : PoolEntry}
    (he : e ∈ poolEntries db now courseId) :
    e.available = getAvailableQuestions db now courseId e.pool ∧
      e.available ≠ [] ∧
      e.weight = baseWeight db.config e.pool *
        penaltyFor db.config e.available.length := by
  simp only [poolEntries, List.mem_filterMap] at he
  obtain ⟨p, -, hf⟩ := he
  by_cases hE : (getAvailableQuestions db now courseId p).isEmpty
  · rw [if_pos hE] at hf; cases hf
  · rw [if_neg hE] at hf
    cases hf
    refine ⟨rfl, ?_, rfl⟩
    simpa [List.isEmpty_iff] using hE

/-- The strategy mix only ever picks from the available list. -/
theorem pickByStrategy_mem {config : Configuration} {available : List QuestionState}
    {r2 r3 : Rat} {st : SelectionStrategy} {sel : QuestionState}
    (h : pickByStrategy config available r2 r3 = (st, some sel)) : sel ∈ available := by
  simp only [pickByStrategy] at h
  by_cases h1 : r2 * 100 < config.strategy_oldest_pct
  · rw [if_pos h1] at h
    cases hro : reduceOldest available with
    | none =>
      rw [hro] at h
      split at h
      · rw [Prod.mk.injEq] at h
        exact jsIndex_mem h.2
      next hn => exact absurd (Or.inr rfl) hn
    | some y =>
      rw [hro] at h
      split at h
      · rw [Prod.mk.injEq] at h
        exact jsIndex_mem h.2
      · rw [Prod.mk.injEq] at h
        obtain ⟨-, h2⟩ := h
        cases h2
        exact reduceOldest_mem hro
  · rw [if_neg h1] at h
    by_cases h2c : r2 * 100 < config.strategy_oldest_pct + config.strategy_demoted_pct
    · rw [if_pos h2c] at h
      by_cases hd : (available.filter (fun s => s.was_demoted)).isEmpty
      · rw [if_pos hd] at h
        split at h
        · rw [Prod.mk.injEq] at h
          exact jsIndex_mem h.2
        next hn => exact absurd (Or.inl rfl) hn
      · rw [if_neg hd] at h
        cases hro : reduceOldest (available.filter (fun s => s.was_demoted)) with
        | none =>
          rw [hro] at h
          split at h
          · rw [Prod.mk.injEq] at h
            exact jsIndex_mem h.2
          next hn => exact absurd (Or.inr rfl) hn
        | some y =>
          rw [hro] at h
          split at h
          · rw [Prod.mk.injEq] at h
            exact jsIndex_mem h.2
          · rw [Prod.mk.injEq] at h
            obtain ⟨-, h3⟩ := h
            cases h3
            exact (List.mem_filter.mp (reduceOldest_mem hro)).1
    · rw [if_neg h2c] at h
      split at h
      · rw [Prod.mk.injEq] at h
        exact jsIndex_mem h.2
      next hn => exact absurd (Or.inl rfl) hn

/-- The state of a returned scheduling result is an available question of
one of the drawable pools. -/
theorem selectQuestion_state_mem {db : MemDB} {now : Int} {r1 r2 r3 : Rat}
    {courseId : String} {res : NextQuestionResult}
    (h : selectQuestion db now r1 r2 r3 courseId = some res) :
    ∃ e ∈ poolEntries db now courseId, res.state ∈ e.available := by
  unfold selectQuestion at h
  split at h
  · cases h
  next e0 rest heq =>
    simp only [] at h
    set ch := (rouletteWalk (r1 * totalWeight (e0 :: rest)) 0 (e0 :: rest)).getD e0
      with hch
    have hchosen : ch ∈ poolEntries db now courseId := by
      rw [heq]
      rw [hch]
      cases hrw : rouletteWalk (r1 * totalWeight (e0 :: rest)) 0 (e0 :: rest) with
      | none => exact List.mem_cons_self _ _
      | some e => exact rouletteWalk_mem hrw
    rcases hpk : pickByStrategy db.config ch.available r2 r3 with ⟨strat, selOpt⟩
    rw [hpk] at h
    cases selOpt with
    | none => cases h
    | some sel =>
      have h' : (match getQuestion db courseId sel.question_id with
          | none => (none : Option NextQuestionResult)
          | some q => some { question := q, state := sel, strategy := strat }) =
          some res := h
      cases hq : getQuestion db courseId sel.question_id with
      | none => rw [hq] at h'; cases h'
      | some q =>
        rw [hq] at h'
        cases h'
        exact ⟨ch, hchosen, pickByStrategy_mem hpk⟩

/-- C3: findNextQuestion never returns a question whose state is hidden or
whose snooze_until lies beyond now (so in particular not one freshly
snoozed by processAnswer, whatever pool it moved to), and
getAvailableQuestions returns exactly the stored states of the given pool
that are not hidden and whose snooze_until is null or at most now. -/
theorem findNextQuestion_snooze_hidden_safety
    (db : MemDB) (now : Int) (r1 r2 r3 : Rat) (courseId : String)
    (res : NextQuestionResult)
    (h : (findNextQuestion db now r1 r2 r3 courseId).2 = some res) :
    (res.state.hidden = false ∧ ∀ t, res.state.snooze_until = some t → t ≤ now) ∧
    ∀ (db' : MemDB) (now' : Int) (c : String) (p : Pool) (s : QuestionState),
      s ∈ getAvailableQuestions db' now' c p ↔
        s ∈ db'.questionStates ∧ s.course_id = c ∧ s.pool = p ∧
          s.hidden = false ∧
          (s.snooze_until = none ∨ ∃ t, s.snooze_until = some t ∧ t ≤ now') := by
  constructor
  · obtain ⟨e, he, hmem⟩ := selectQuestion_state_mem
      (show selectQuestion ((refillTestPoolFromLatent db now courseId).1) now r1 r2 r3
          courseId = some res from h)
    rw [(poolEntries_spec he).1] at hmem
    have hc := mem_getAvailableQuestions.mp hmem
    refine ⟨hc.2.2.2.1, ?_⟩
    intro t ht
    have hs := hc.2.2.2.2
    rw [ht] at hs
    simpa [snoozeOk] using hs
  · intro db' now' c p s
    rw [mem_getAvailableQuestions, snoozeOk_iff]

/-- Witness for C3: a concrete call that returns a question. -/
theorem findNextQuestion_snooze_hidden_safety_witness :
    (findNextQuestion witnessDB 5 0 0 0 "c").2 =
      some ⟨⟨"c", 1, "q1", ["A", "B"], "A", "e"⟩, witnessState, .oldest⟩ ∧
    witnessState.hidden = false := by
  have h : (findNextQuestion witnessDB 5 0 0 0 "c").2 =
      some ⟨⟨"c", 1, "q1", ["A", "B"], "A", "e"⟩, witnessState, .oldest⟩ := by
    simp only [findNextQuestion, refillTestPoolFromLatent, getAllQuestions,
      witnessDB, witnessState, defaultConfig]
    norm_num [selectQuestion, poolEntries, getAvailableQuestions, snoozeOk,
      totalWeight, rouletteWalk, pickByStrategy, reduceOldest, getQuestion,
      baseWeight, penaltyFor, List.filter, List.filterMap, List.find?]
    decide
  have := findNextQuestion_snooze_hidden_safety witnessDB 5 0 0 0 "c" _ h
  exact ⟨h, this.1.1⟩

/-- C6 (failing input for the code bug): under the oldest strategy the
source maps a null last_shown to Infinity, so the never-shown question 1
loses to question 2 (shown at t=5): the strategy picks the previously
shown question, not the never-shown one the spec promises. -/
theorem oldest_strategy_never_shown_is_dispreferred :
    pickByStrategy defaultConfig [neverShownState, shownState] 0 0 =
      (SelectionStrategy.oldest, some shownState) ∧
    reduceOldest [neverShownState, shownState] = some shownState ∧
    neverShownState.last_shown = none ∧
    shownState.last_shown = some 5 ∧
    shownState ≠ neverShownState := by
  refine ⟨?_, by decide, rfl, rfl, by decide⟩
  simp only [pickByStrategy, defaultConfig]
  norm_num [reduceOldest, lastShownLt, neverShownState, shownState]
  decide

/-- The pools entering poolData are exactly the drawable pools, in the
fixed order test, learned, master, with a non-empty availability list. -/
theorem poolEntries_pools (db : MemDB) (now : Int) (courseId : String) :
    (poolEntries db now courseId).map (fun e => e.pool) =
      [Pool.test, Pool.learned, Pool.master].filter
        (fun p => !(getAvailableQuestions db now courseId p).isEmpty) := by
  simp only [poolEntries]
  by_cases h1 : (getAvailableQuestions db now courseId Pool.test).isEmpty <;>
    by_cases h2 : (getAvailableQuestions db now courseId Pool.learned).isEmpty <;>
      by_cases h3 : (getAvailableQuestions db now courseId Pool.master).isEmpty <;>
        simp [List.filterMap, List.filter, h1, h2, h3]

/-- The walk of the roulette selection lands on the first entry whose
cumulative weight exceeds the draw, provided the draw lies between the
accumulated weight and the total. -/
theorem rouletteWalk_first (rand : Rat) :
    ∀ (l : List PoolEntry) (cum : Rat), cum ≤ rand →
      rand < cum + totalWeight l →
      ∃ (i : Nat) (hi : i < l.length),
        rouletteWalk rand cum l = some (l.get ⟨i, hi⟩) ∧
        rand < cum + totalWeight (l.take (i + 1)) ∧
        ∀ j < i, cum + totalWeight (l.take (j + 1)) ≤ rand := by
  intro l
  induction l with
  | nil =>
    intro cum h1 h2
    simp [totalWeight] at h2
    exact absurd h2 (not_lt.mpr h1)
  | cons a l ih =>
    intro cum h1 h2
    by_cases hc : rand < cum + a.weight
    · refine ⟨0, by simp, ?_, ?_, ?_⟩
      · rw [rouletteWalk, if_pos hc]; rfl
      · simpa [totalWeight] using hc
      · intro j hj; omega
    · push_neg at hc
      have hsum : totalWeight (a :: l) = a.weight + totalWeight l := by
        simp [totalWeight]
      have h2' : rand < (cum + a.weight) + totalWeight l := by
        rw [hsum] at h2; linarith
      obtain ⟨i, hi, hwalk, hlt, hge⟩ := ih (cum + a.weight) hc h2'
      have htake : ∀ n : Nat,
          totalWeight ((a :: l).take (n + 1)) = a.weight + totalWeight (l.take n) := by
        intro n; simp [totalWeight]
      refine ⟨i + 1, by simpa using hi, ?_, ?_, ?_⟩
      · rw [rouletteWalk, if_neg (not_lt.mpr hc)]
        simpa using hwalk
      · rw [htake (i + 1)]; linarith
      · intro j hj
        cases j with
        | zero => rw [htake 0]; simpa [totalWeight] using hc
        | succ j2 =>
          rw [htake (j2 + 1)]
          have := hge j2 (by omega)
          linarith

/-- C5: pool selection inside findNextQuestion.  Every poolData entry of a
non-empty pool carries weight baseWeight * penalty with the source penalty
formula; pools with no available questions are excluded (the entry list is
the fixed test/learned/master order filtered to non-empty pools); and for
a draw r in [0, totalWeight) the roulette walk selects precisely the first
entry whose cumulative weight exceeds r. -/
theorem poolSelection_weighted_roulette (db : MemDB) (now : Int) (courseId : String)
    (r : Rat) (hr0 : 0 ≤ r) (hr1 : r < totalWeight (poolEntries db now courseId)) :
    (∀ e ∈ poolEntries db now courseId,
      e.available = getAvailableQuestions db now courseId e.pool ∧
      e.available ≠ [] ∧
      e.weight = baseWeight db.config e.pool *
        penaltyFor db.config e.available.length) ∧
    ((poolEntries db now courseId).map (fun e => e.pool) =
      [Pool.test, Pool.learned, Pool.master].filter
        (fun p => !(getAvailableQuestions db now courseId p).isEmpty)) ∧
    (∃ (i : Nat) (hi : i < (poolEntries db now courseId).length),
      rouletteWalk r 0 (poolEntries db now courseId) =
        some ((poolEntries db now courseId).get ⟨i, hi⟩) ∧
      r < totalWeight ((poolEntries db now courseId).take (i + 1)) ∧
      ∀ j < i, totalWeight ((poolEntries db now courseId).take (j + 1)) ≤ r) := by
  refine ⟨fun e he => poolEntries_spec he, poolEntries_pools db now courseId, ?_⟩
  have h := rouletteWalk_first r (poolEntries db now courseId) 0 hr0 (by simpa using hr1)
  simpa using h

/-- Witness for C5 on the concrete one-question database with draw 0. -/
theorem poolSelection_weighted_roulette_witness :
    (0 : Rat) ≤ 0 ∧ (0 : Rat) < totalWeight (poolEntries witnessDB 5 "c") ∧
    ∃ (i : Nat) (hi : i < (poolEntries witnessDB 5 "c").length),
      rouletteWalk 0 0 (poolEntries witnessDB 5 "c") =
        some ((poolEntries witnessDB 5 "c").get ⟨i, hi⟩) ∧
      (0 : Rat) < totalWeight ((poolEntries witnessDB 5 "c").take (i + 1)) ∧
      ∀ j < i, totalWeight ((poolEntries witnessDB 5 "c").take (j + 1)) ≤ 0 := by
  have hav1 : getAvailableQuestions witnessDB 5 "c" Pool.test = [witnessState] := by
    decide
  have hav2 : getAvailableQuestions witnessDB 5 "c" Pool.learned = [] := by decide
  have hav3 : getAvailableQuestions witnessDB 5 "c" Pool.master = [] := by decide
  have hpe : poolEntries witnessDB 5 "c" =
      [⟨Pool.test, [witnessState],
        baseWeight witnessDB.config Pool.test * penaltyFor witnessDB.config 1⟩] := by
    simp [poolEntries, hav1, hav2, hav3]
  have htw : (0 : Rat) < totalWeight (poolEntries witnessDB 5 "c") := by
    rw [hpe]
    norm_num [totalWeight, baseWeight, penaltyFor, witnessDB, defaultConfig]
  exact ⟨le_refl 0, htw,
    (poolSelection_weighted_roulette witnessDB 5 "c" 0 (le_refl 0) htw).2.2⟩

/-- C9: the in-memory findNextQuestion returns the null sentinel (and, by
totality of the embedding, raises nothing) whenever all three drawable
pools have no available question after the refill step; the IndexedDB
findNextQuestion rejects with the getCourseStats error when the requested
course does not exist. -/
theorem findNextQuestion_empty_and_missing_course :
    (∀ (db : MemDB) (now : Int) (r1 r2 r3 : Rat) (courseId : String),
      (∀ p ∈ [Pool.test, Pool.learned, Pool.master],
        getAvailableQuestions (refillTestPoolFromLatent db now courseId).1 now
          courseId p = []) →
      (findNextQuestion db now r1 r2 r3 courseId).2 = none) ∧
    (∀ (db : IdbDB) (now : Int) (r1 r2 r3 r4 : Rat) (courseId : String)
      (cfg : LegacyConfiguration),
      db.config = some cfg →
      db.courses.find? (fun s => decide (s.id = courseId)) = none →
      idbFindNextQuestion db now r1 r2 r3 r4 courseId =
        Except.error ("Course " ++ courseId ++ " not found")) := by
  constructor
  · intro db now r1 r2 r3 courseId hempty
    have h1 := hempty Pool.test (by simp)
    have h2 := hempty Pool.learned (by simp)
    have h3 := hempty Pool.master (by simp)
    have hpe : poolEntries (refillTestPoolFromLatent db now courseId).1 now courseId
        = [] := by
      simp [poolEntries, h1, h2, h3]
    show selectQuestion (refillTestPoolFromLatent db now courseId).1 now r1 r2 r3
        courseId = none
    rw [selectQuestion, hpe]
  · intro db now r1 r2 r3 r4 courseId cfg hconf hfind
    simp [idbFindNextQuestion, idbGetConfig, idbGetCourseStats, hconf, hfind,
      bind, Except.bind]

/-- Witness for C9 on the empty stores. -/
theorem findNextQuestion_empty_and_missing_course_witness :
    (findNextQuestion emptyMemDB 0 0 0 0 "c").2 = none ∧
    idbFindNextQuestion emptyIdbDB 0 0 0 0 0 "c" =
      Except.error "Course c not found" := by
  constructor
  · exact findNextQuestion_empty_and_missing_course.1 emptyMemDB 0 0 0 0 "c"
      (by decide)
  · exact findNextQuestion_empty_and_missing_course.2 emptyIdbDB 0 0 0 0 0 "c"
      legacyDefaultConfig rfl rfl

/-- Elements of an updated stats list: the written record or an untouched
original. -/
theorem mem_setCourseStats {db : MemDB} {c : String} {new : CourseStats}
    {s : CourseStats} (hs : s ∈ (setCourseStats db c new).courseStats) :
    s = new ∨ s ∈ db.courseStats := by
  simp only [setCourseStats, List.mem_map] at hs
  obtain ⟨t, ht, heq⟩ := hs
  by_cases hid : t.id = c
  · left; rw [← heq, if_pos hid]
  · right; rw [← heq, if_neg hid]; exact ht

/-- adjustPoolCount moves the pool-count sum by d and leaves
question_count alone. -/
theorem adjustPoolCount_sum (s : CourseStats) (p : Pool) (d : Int) :
    (adjustPoolCount s p d).latent_count + (adjustPoolCount s p d).test_count +
        (adjustPoolCount s p d).learned_count + (adjustPoolCount s p d).master_count =
      s.latent_count + s.test_count + s.learned_count + s.master_count + d ∧
    (adjustPoolCount s p d).question_count = s.question_count := by
  cases p <;> simp [adjustPoolCount] <;> ring

/-- The refill step preserves the stats invariant of every course. -/
theorem refill_preserves_statsInvariant (db : MemDB) (now : Int) (c : String)
    (hdb : ∀ s ∈ db.courseStats, statsInvariant s) :
    ∀ s ∈ (refillTestPoolFromLatent db now c).1.courseStats, statsInvariant s := by
  intro s hs
  simp only [refillTestPoolFromLatent] at hs
  split at hs
  · exact hdb s hs
  · split at hs
    · exact hdb s hs
    · split at hs
      · exact hdb s hs
      · split at hs
        next stats hstats =>
          rcases mem_setCourseStats hs with rfl | hmem
          · have hinv := hdb stats (List.mem_of_find?_eq_some hstats)
            simp only [statsInvariant] at hinv ⊢
            omega
          · exact hdb s hmem
        next => exact hdb s hs

/-- C10: every CourseStats-touching operation of the in-memory database
preserves the invariant latent+test+learned+master = question_count for
every course: createCourse establishes it for the new course, resetCourse
re-establishes it, the refill and pool transitions move one unit between
pool counters, and hideQuestion decrements a pool counter and the total
together. -/
theorem stats_invariant_preserved :
    (∀ (db : MemDB) (now : Int) (name : String) (json : JValue) (db' : MemDB)
      (r : CourseCreationResult), createCourse db now name json = Except.ok (db', r) →
      (∀ s ∈ db.courseStats, statsInvariant s) →
      ∀ s ∈ db'.courseStats, statsInvariant s) ∧
    (∀ (db : MemDB) (now : Int) (c : String),
      (∀ s ∈ db.courseStats, statsInvariant s) →
      ∀ s ∈ (resetCourse db now c).courseStats, statsInvariant s) ∧
    (∀ (db : MemDB) (now : Int) (c : String),
      (∀ s ∈ db.courseStats, statsInvariant s) →
      ∀ s ∈ (refillTestPoolFromLatent db now c).1.courseStats, statsInvariant s) ∧
    (∀ (db : MemDB) (c : String) (q : Nat) (u : QuestionStateUpdates)
      (oldPool newPool : Pool),
      (∀ s ∈ db.courseStats, statsInvariant s) →
      ∀ s ∈ (updateQuestionStateWithPoolTransition db c q u oldPool newPool).courseStats,
        statsInvariant s) ∧
    (∀ (db : MemDB) (now : Int) (c : String) (q : Nat),
      (∀ s ∈ db.courseStats, statsInvariant s) →
      ∀ s ∈ (hideQuestion db now c q).courseStats, statsInvariant s) := by
  refine ⟨?_, ?_, ?_, ?_, ?_⟩
  · intro db now name json db' r h hdb s hs
    simp only [createCourse] at h
    split at h
    · cases h
    · cases h
      rcases List.mem_append.mp hs with hmem | hnew
      · exact hdb s hmem
      · simp only [List.mem_singleton] at hnew
        subst hnew
        simp [statsInvariant]
  · intro db now c hdb s hs
    simp only [resetCourse] at hs
    split at hs
    · exact hdb s hs
    next stats hstats =>
      rcases mem_setCourseStats hs with rfl | hmem
      · simp [statsInvariant]
      · exact hdb s hmem
  · exact refill_preserves_statsInvariant
  · intro db c q u oldPool newPool hdb s hs
    simp only [updateQuestionStateWithPoolTransition] at hs
    split at hs
    · split at hs
      next stats hstats =>
        rcases mem_setCourseStats hs with rfl | hmem
        · have hinv := hdb stats (List.mem_of_find?_eq_some hstats)
          have h1 := adjustPoolCount_sum stats oldPool (-1)
          have h2 := adjustPoolCount_sum (adjustPoolCount stats oldPool (-1)) newPool 1
          simp only [statsInvariant] at hinv ⊢
          omega
        · exact hdb s hmem
      next => exact hdb s hs
    · exact hdb s hs
  · intro db now c q hdb s hs
    simp only [hideQuestion] at hs
    split at hs
    · exact hdb s hs
    next s0 hs0 =>
      split at hs
      · -- the question sat in Test: a refill follows the hide
        refine refill_preserves_statsInvariant _ now c ?_ s hs
        intro t ht
        split at ht
        next stats hstats =>
          rcases mem_setCourseStats ht with rfl | hmem
          · have hinv := hdb stats (List.mem_of_find?_eq_some hstats)
            have h1 := adjustPoolCount_sum stats s0.pool (-1)
            simp only [statsInvariant] at hinv ⊢
            omega
          · exact hdb t hmem
        next => exact hdb t ht
      · split at hs
        next stats hstats =>
          rcases mem_setCourseStats hs with rfl | hmem
          · have hinv := hdb stats (List.mem_of_find?_eq_some hstats)
            have h1 := adjustPoolCount_sum stats s0.pool (-1)
            simp only [statsInvariant] at hinv ⊢
            omega
          · exact hdb s hmem
        next => exact hdb s hs

/-- Witness for C10: hideQuestion on the concrete database keeps the
invariant. -/
theorem stats_invariant_preserved_witness :
    (∀ s ∈ witnessDB.courseStats, statsInvariant s) ∧
    (∀ s ∈ (hideQuestion witnessDB 0 "c" 1).courseStats, statsInvariant s) := by
  have hdb : ∀ s ∈ witnessDB.courseStats, statsInvariant s := by
    intro s hs
    simp only [witnessDB, List.mem_singleton] at hs
    subst hs
    simp [statsInvariant]
  exact ⟨hdb, stats_invariant_preserved.2.2.2.2 witnessDB 0 "c" 1 hdb⟩

/-- testNonHiddenCount as a countP over the state list. -/
theorem testNonHiddenCount_eq_countP (db : MemDB) (c : String) :
    testNonHiddenCount db c = db.questionStates.countP
      (fun s => decide (s.course_id = c ∧ s.pool = Pool.test) && !s.hidden) := by
  rw [testNonHiddenCount, getAllQuestions, List.filter_filter,
    ← List.countP_eq_length_filter]
  apply List.countP_congr
  intro s _
  rw [Bool.and_comm]

/-- latentNonHiddenCount as a countP over the state list. -/
theorem latentNonHiddenCount_eq_countP (db : MemDB) (c : String) :
    latentNonHiddenCount db c = db.questionStates.countP
      (fun s => decide (s.course_id = c ∧ s.pool = Pool.latent) && !s.hidden) := by
  rw [latentNonHiddenCount, getAllQuestions, List.filter_filter,
    ← List.countP_eq_length_filter]
  apply List.countP_congr
  intro s _
  rw [Bool.and_comm]

/-- With unique Map keys, two stored states with the same key are equal. -/
theorem stateKey_unique {l : List QuestionState} (h : (l.map stateKey).Nodup)
    {s t : QuestionState} (hs : s ∈ l) (ht : t ∈ l)
    (hk : stateKey s = stateKey t) : s = t :=
  List.inj_on_of_nodup_map h hs ht hk

/-- Within one course, unique keys give unique question ids. -/
theorem qidsNodup (c : String) : ∀ (l : List QuestionState),
    (∀ s ∈ l, s.course_id = c) → (l.map stateKey).Nodup →
    (l.map (fun s => s.question_id)).Nodup := by
  intro l
  induction l with
  | nil => intro _ _; simp
  | cons a l ih =>
    intro hc hn
    simp only [List.map_cons, List.nodup_cons] at hn ⊢
    refine ⟨?_, ih (fun s hs => hc s (List.mem_cons_of_mem a hs)) hn.2⟩
    intro hmem
    obtain ⟨s, hs, hqs⟩ := List.mem_map.mp hmem
    apply hn.1
    have hks : stateKey s = stateKey a := by
      simp [stateKey, hqs, hc a (List.mem_cons_self a l), hc s (List.mem_cons_of_mem a hs)]
    exact hks ▸ List.mem_map_of_mem stateKey hs

/-- Promoting the unique latent non-hidden holder of one key raises the
Test-pool non-hidden count by exactly one. -/
theorem countP_setPoolTest_of_latent (c : String) (k : Nat) (s0 : QuestionState)
    (hkc : s0.course_id = c) (hkk : s0.question_id = k)
    (hlat : s0.pool = Pool.latent) (hhid : s0.hidden = false) :
    ∀ (states : List QuestionState), (states.map stateKey).Nodup → s0 ∈ states →
      (states.map (fun s => if s.course_id = c ∧ s.question_id = k then
          { s with pool := Pool.test } else s)).countP
        (fun s => decide (s.course_id = c ∧ s.pool = Pool.test) && !s.hidden) =
      states.countP
        (fun s => decide (s.course_id = c ∧ s.pool = Pool.test) && !s.hidden) + 1 := by
  intro states
  induction states with
  | nil => intro _ h; cases h
  | cons a states ih =>
    intro hnodup hs0
    rw [List.map_cons, List.countP_cons, List.countP_cons]
    rw [List.map_cons, List.nodup_cons] at hnodup
    by_cases ha : a.course_id = c ∧ a.question_id = k
    · have has0 : a = s0 := by
        rcases List.mem_cons.mp hs0 with h | hmem
        · exact h.symm
        · exfalso
          apply hnodup.1
          have h1 : stateKey s0 = (c, k) := by simp [stateKey, hkc, hkk]
          have h2 : stateKey a = (c, k) := by simp [stateKey, ha.1, ha.2]
          rw [h2, ← h1]
          exact List.mem_map_of_mem stateKey hmem
      have hrest : states.map (fun s => if s.course_id = c ∧ s.question_id = k then
          { s with pool := Pool.test } else s) = states := by
        conv_rhs => rw [← List.map_id states]
        apply List.map_congr_left
        intro s hsmem
        have hne : ¬(s.course_id = c ∧ s.question_id = k) := by
          intro hcon
          apply hnodup.1
          have h1 : stateKey s = (c, k) := by simp [stateKey, hcon.1, hcon.2]
          have h2 : stateKey a = (c, k) := by simp [stateKey, ha.1, ha.2]
          rw [h2, ← h1]
          exact List.mem_map_of_mem stateKey hsmem
        simp [hne]
      rw [hrest, if_pos ha]
      rw [← has0] at hlat hhid
      simp [ha.1, hhid, hlat]
    · rw [if_neg ha]
      have hs0' : s0 ∈ states := by
        rcases List.mem_cons.mp hs0 with h | hmem
        · exact absurd ⟨h ▸ hkc, h ▸ hkk⟩ ha
        · exact hmem
      rw [ih hnodup.2 hs0']
      omega

/-- Promoting the keys k :: ks factors as promoting k, then ks. -/
theorem promoteMap_cons (c : String) (k : Nat) (ks : List Nat)
    (states : List QuestionState) :
    states.map (fun s => if s.course_id = c ∧ s.question_id ∈ k :: ks then
        { s with pool := Pool.test } else s) =
      (states.map (fun s => if s.course_id = c ∧ s.question_id = k then
        { s with pool := Pool.test } else s)).map
        (fun s => if s.course_id = c ∧ s.question_id ∈ ks then
          { s with pool := Pool.test } else s) := by
  rw [List.map_map]
  apply List.map_congr_left
  intro s _
  by_cases hc : s.course_id = c
  · by_cases hk : s.question_id = k
    · by_cases hks : s.question_id ∈ ks <;>
        simp [Function.comp, hc, hk, hks, List.mem_cons]
    · by_cases hks : s.question_id ∈ ks <;>
        simp [Function.comp, hc, hk, hks, List.mem_cons]
  · simp [Function.comp, hc]

/-- Promoting a duplicate-free key list of latent non-hidden states raises
the Test-pool non-hidden count by the number of keys. -/
theorem countP_promoteMap (c : String) :
    ∀ (ks : List Nat) (states : List QuestionState),
      (states.map stateKey).Nodup → ks.Nodup →
      (∀ k ∈ ks, ∃ s0 ∈ states, s0.course_id = c ∧ s0.question_id = k ∧
        s0.pool = Pool.latent ∧ s0.hidden = false) →
      (states.map (fun s => if s.course_id = c ∧ s.question_id ∈ ks then
          { s with pool := Pool.test } else s)).countP
        (fun s => decide (s.course_id = c ∧ s.pool = Pool.test) && !s.hidden) =
      states.countP
        (fun s => decide (s.course_id = c ∧ s.pool = Pool.test) && !s.hidden)
        + ks.length := by
  intro ks
  induction ks with
  | nil =>
    intro states _ _ _
    simp
  | cons k ks ih =>
    intro states hnodup hks hin
    rw [promoteMap_cons]
    obtain ⟨s0, hs0, h1, h2, h3, h4⟩ := hin k (List.mem_cons_self k ks)
    have hkeys1 : (states.map (fun s => if s.course_id = c ∧ s.question_id = k then
        { s with pool := Pool.test } else s)).map stateKey = states.map stateKey := by
      rw [List.map_map]
      apply List.map_congr_left
      intro s _
      by_cases h : s.course_id = c ∧ s.question_id = k <;>
        simp [Function.comp, stateKey, h]
    have hnodup1 : ((states.map (fun s => if s.course_id = c ∧ s.question_id = k then
        { s with pool := Pool.test } else s)).map stateKey).Nodup := by
      rw [hkeys1]; exact hnodup
    have hin1 : ∀ k2 ∈ ks, ∃ s ∈ states.map (fun s =>
        if s.course_id = c ∧ s.question_id = k then
          { s with pool := Pool.test } else s),
        s.course_id = c ∧ s.question_id = k2 ∧
          s.pool = Pool.latent ∧ s.hidden = false := by
      intro k2 hk2
      obtain ⟨s, hs, hsc, hsk, hsp, hsh⟩ := hin k2 (List.mem_cons_of_mem k hk2)
      refine ⟨s, ?_, hsc, hsk, hsp, hsh⟩
      have hne : ¬(s.course_id = c ∧ s.question_id = k) := by
        rintro ⟨-, hkk⟩
        rw [hsk] at hkk
        exact (List.nodup_cons.mp hks).1 (hkk ▸ hk2)
      have heq : (fun s => if s.course_id = c ∧ s.question_id = k then
          { s with pool := Pool.test } else s) s = s := if_neg hne
      exact heq ▸ List.mem_map_of_mem _ hs
    rw [ih _ hnodup1 (List.nodup_cons.mp hks).2 hin1]
    rw [countP_setPoolTest_of_latent c k s0 h1 h2 h3 h4 states hnodup hs0]
    simp [Nat.add_assoc, Nat.add_comm]

/-- The promote loop of the refill equals one map over the state list. -/
theorem foldl_setPoolTest_eq_map (c : String) :
    ∀ (ks : List Nat) (states : List QuestionState),
      ks.foldl (fun st k => setPoolTest st c k) states =
        states.map (fun s => if s.course_id = c ∧ s.question_id ∈ ks then
          { s with pool := Pool.test } else s) := by
  intro ks
  induction ks with
  | nil => intro states; simp
  | cons k ks ih =>
    intro states
    rw [List.foldl_cons, ih, setPoolTest, ← promoteMap_cons]

/-- The keys promoted by the refill: duplicate-free, and each one is held
by a stored latent non-hidden state of the course. -/
theorem promotedKeys_facts (db : MemDB) (c : String) (hwf : WellFormedStates db)
    (n : Nat) :
    (((((getAllQuestions db c Pool.latent).filter (fun s => !s.hidden)).insertionSort
        (fun a b => a.question_id ≤ b.question_id)).take n).map
        (fun q => q.question_id)).Nodup ∧
    (∀ k ∈ ((((getAllQuestions db c Pool.latent).filter (fun s => !s.hidden)).insertionSort
        (fun a b => a.question_id ≤ b.question_id)).take n).map (fun q => q.question_id),
      ∃ s0 ∈ db.questionStates, s0.course_id = c ∧ s0.question_id = k ∧
        s0.pool = Pool.latent ∧ s0.hidden = false) := by
  have hsub : ((getAllQuestions db c Pool.latent).filter (fun s => !s.hidden)).Sublist
      db.questionStates :=
    (List.filter_sublist _).trans (List.filter_sublist _)
  have hmemprops : ∀ s ∈ (getAllQuestions db c Pool.latent).filter (fun s => !s.hidden),
      s ∈ db.questionStates ∧ s.course_id = c ∧ s.pool = Pool.latent ∧
        s.hidden = false := by
    intro s hs
    rw [List.mem_filter] at hs
    obtain ⟨hs1, hs2⟩ := hs
    rw [getAllQuestions, List.mem_filter] at hs1
    obtain ⟨hs3, hs4⟩ := hs1
    rw [decide_eq_true_eq] at hs4
    refine ⟨hs3, hs4.1, hs4.2, ?_⟩
    simpa using hs2
  have hkeys : (((getAllQuestions db c Pool.latent).filter (fun s => !s.hidden)).map
      stateKey).Nodup := (hsub.map stateKey).nodup hwf
  have hqidA := qidsNodup c _ (fun s hs => (hmemprops s hs).2.1) hkeys
  have hperm := List.perm_insertionSort
    (fun a b : QuestionState => a.question_id ≤ b.question_id)
    ((getAllQuestions db c Pool.latent).filter (fun s => !s.hidden))
  have hqidS : ((((getAllQuestions db c Pool.latent).filter
      (fun s => !s.hidden)).insertionSort
        (fun a b => a.question_id ≤ b.question_id)).map
        (fun q => q.question_id)).Nodup :=
    ((hperm.map _).nodup_iff).mpr hqidA
  constructor
  · rw [List.map_take]
    exact (List.take_sublist _ _).nodup hqidS
  · intro k hk
    obtain ⟨q, hq, rfl⟩ := List.mem_map.mp hk
    have hq2 := (List.take_sublist _ _).subset hq
    have hq3 := hperm.mem_iff.mp hq2
    obtain ⟨hqs, hqc, hqp, hqh⟩ := hmemprops q hq3
    exact ⟨q, hqs, hqc, rfl, hqp, hqh⟩

/-- The refill count identity (under the amended hypothesis that the Test
pool is not already above target) and the shape of its state mutation:
every state is either untouched or a latent non-hidden state of the course
promoted to Test with all other fields unchanged. -/
theorem refill_count_and_shape (db : MemDB) (now : Int) (c : String)
    (hwf : WellFormedStates db)
    (hle : testNonHiddenCount db c ≤ db.config.test_pool_target_size) :
    testNonHiddenCount (refillTestPoolFromLatent db now c).1 c =
      min db.config.test_pool_target_size
        (testNonHiddenCount db c + latentNonHiddenCount db c) ∧
    ∀ s' ∈ (refillTestPoolFromLatent db now c).1.questionStates,
      s' ∈ db.questionStates ∨
      ∃ s ∈ db.questionStates, s.course_id = c ∧ s.pool = Pool.latent ∧
        s.hidden = false ∧ s' = { s with pool := Pool.test } := by
  have e1 : testNonHiddenCount db c =
      ((getAllQuestions db c Pool.test).filter (fun q => !q.hidden)).length := rfl
  have e2 : latentNonHiddenCount db c =
      ((getAllQuestions db c Pool.latent).filter (fun s => !s.hidden)).length := rfl
  by_cases h1 : ((getAllQuestions db c Pool.test).filter (fun q => !q.hidden)).length ≥
      db.config.test_pool_target_size
  · have hr : refillTestPoolFromLatent db now c = (db, 0) := by
      simp only [refillTestPoolFromLatent]
      rw [if_pos h1]
    have hr' : (refillTestPoolFromLatent db now c).1 = db := by rw [hr]
    rw [hr']
    rw [← e1] at h1
    exact ⟨by omega, fun s' hs' => Or.inl hs'⟩
  · by_cases h2 : ((getAllQuestions db c Pool.latent).filter
        (fun s => !s.hidden)).isEmpty = true
    · have hr : refillTestPoolFromLatent db now c = (db, 0) := by
        simp only [refillTestPoolFromLatent]
        rw [if_neg h1, if_pos h2]
      have hr' : (refillTestPoolFromLatent db now c).1 = db := by rw [hr]
      rw [hr']
      have hL : latentNonHiddenCount db c = 0 := by
        rw [e2, List.isEmpty_iff.mp h2]
        rfl
      rw [← e1] at h1
      exact ⟨by rw [hL]; omega, fun s' hs' => Or.inl hs'⟩
    · have hlen0 : ((getAllQuestions db c Pool.latent).filter
          (fun s => !s.hidden)).length ≠ 0 := by
        intro h0
        exact h2 (by rw [List.isEmpty_iff, ← List.length_eq_zero]; exact h0)
      have hslen : ((((getAllQuestions db c Pool.latent).filter
          (fun s => !s.hidden)).insertionSort
            (fun a b => a.question_id ≤ b.question_id))).length =
          ((getAllQuestions db c Pool.latent).filter (fun s => !s.hidden)).length :=
        List.length_insertionSort _ _
      have htp0 : ¬(min ((((getAllQuestions db c Pool.latent).filter
          (fun s => !s.hidden)).insertionSort
            (fun a b => a.question_id ≤ b.question_id))).length
          (db.config.test_pool_target_size -
            ((getAllQuestions db c Pool.test).filter (fun q => !q.hidden)).length)
          = 0) := by
        rw [not_le] at h1
        omega
      have hr1 : (refillTestPoolFromLatent db now c).1.questionStates =
          (((((getAllQuestions db c Pool.latent).filter
            (fun s => !s.hidden)).insertionSort
              (fun a b => a.question_id ≤ b.question_id))).take
            (min ((((getAllQuestions db c Pool.latent).filter
              (fun s => !s.hidden)).insertionSort
                (fun a b => a.question_id ≤ b.question_id))).length
              (db.config.test_pool_target_size -
                ((getAllQuestions db c Pool.test).filter
                  (fun q => !q.hidden)).length))).foldl
            (fun st q => setPoolTest st c q.question_id) db.questionStates := by
        simp only [refillTestPoolFromLatent]
        rw [if_neg h1, if_neg h2, if_neg htp0]
        cases hg : getCourseStats? db c <;> simp [hg, setCourseStats]
      obtain ⟨hksnodup, hin⟩ := promotedKeys_facts db c hwf
        (min ((((getAllQuestions db c Pool.latent).filter
          (fun s => !s.hidden)).insertionSort
            (fun a b => a.question_id ≤ b.question_id))).length
          (db.config.test_pool_target_size -
            ((getAllQuestions db c Pool.test).filter (fun q => !q.hidden)).length))
      constructor
      · rw [testNonHiddenCount_eq_countP, hr1, ← List.foldl_map,
          foldl_setPoolTest_eq_map, countP_promoteMap c _ _ hwf hksnodup hin,
          ← testNonHiddenCount_eq_countP]
        rw [List.length_map, List.length_take]
        rw [← e1] at h1 ⊢
        rw [not_le] at h1
        rw [e2]
        omega
      · intro s' hs'
        rw [hr1, ← List.foldl_map, foldl_setPoolTest_eq_map] at hs'
        obtain ⟨s, hs, heq⟩ := List.mem_map.mp hs'
        by_cases hcond : s.course_id = c ∧ s.question_id ∈
            (((((getAllQuestions db c Pool.latent).filter
              (fun s => !s.hidden)).insertionSort
                (fun a b => a.question_id ≤ b.question_id))).take
              (min ((((getAllQuestions db c Pool.latent).filter
                (fun s => !s.hidden)).insertionSort
                  (fun a b => a.question_id ≤ b.question_id))).length
                (db.config.test_pool_target_size -
                  ((getAllQuestions db c Pool.test).filter
                    (fun q => !q.hidden)).length))).map (fun q => q.question_id)
        · right
          obtain ⟨s0, hs0, hc0, hk0, hp0, hh0⟩ := hin s.question_id hcond.2
          have hss0 : s = s0 :=
            stateKey_unique hwf hs hs0 (by simp [stateKey, hcond.1, hc0, hk0])
          rw [if_pos hcond] at heq
          exact ⟨s, hs, hcond.1, by rw [hss0]; exact hp0, by rw [hss0]; exact hh0,
            heq.symm⟩
        · left
          rw [if_neg hcond] at heq
          exact heq ▸ hs

/-- C4 (counterexample): overfullDB's course has at least
test_pool_target_size (= 1) non-hidden questions, yet after a
findNextQuestion call the Test pool's non-hidden count is 2, not
min(target, latent+test at call time) = 1 — the refill never shrinks an
overfull Test pool. -/
theorem refill_invariant_counterexample :
    overfullDB.config.test_pool_target_size ≤
      (overfullDB.questionStates.filter (fun s => !s.hidden)).length ∧
    testNonHiddenCount (findNextQuestion overfullDB 0 0 0 0 "c").1 "c" ≠
      min overfullDB.config.test_pool_target_size
        (testNonHiddenCount overfullDB "c" + latentNonHiddenCount overfullDB "c") := by
  constructor
  · decide
  · decide

/-- C4 (amended): the refill step runs on every findNextQuestion call (the
returned store is exactly the refilled store); the non-hidden Latent
candidates are processed in ascending question_id order; the promoted
prefix changes pool only; and — provided the Test pool's non-hidden count
does not already exceed test_pool_target_size at call time — the Test
pool's non-hidden count after the call equals min(test_pool_target_size,
non-hidden test + latent count at call time). -/
theorem refill_runs_every_call_and_count (db : MemDB) (now : Int) (r1 r2 r3 : Rat)
    (c : String) (hwf : WellFormedStates db)
    (hle : testNonHiddenCount db c ≤ db.config.test_pool_target_size) :
    (findNextQuestion db now r1 r2 r3 c).1 = (refillTestPoolFromLatent db now c).1 ∧
    List.Sorted (fun a b => a ≤ b)
      ((((getAllQuestions db c Pool.latent).filter (fun s => !s.hidden)).insertionSort
          (fun a b => a.question_id ≤ b.question_id)).map (fun s => s.question_id)) ∧
    (∀ s' ∈ (findNextQuestion db now r1 r2 r3 c).1.questionStates,
      s' ∈ db.questionStates ∨
      ∃ s ∈ db.questionStates, s.course_id = c ∧ s.pool = Pool.latent ∧
        s.hidden = false ∧ s' = { s with pool := Pool.test }) ∧
    testNonHiddenCount (findNextQuestion db now r1 r2 r3 c).1 c =
      min db.config.test_pool_target_size
        (testNonHiddenCount db c + latentNonHiddenCount db c) := by
  have hfr : (findNextQuestion db now r1 r2 r3 c).1 =
      (refillTestPoolFromLatent db now c).1 := rfl
  obtain ⟨hcount, hshape⟩ := refill_count_and_shape db now c hwf hle
  refine ⟨hfr, ?_, by rw [hfr]; exact hshape, by rw [hfr]; exact hcount⟩
  haveI : IsTotal QuestionState (fun a b => a.question_id ≤ b.question_id) :=
    ⟨fun a b => le_total _ _⟩
  haveI : IsTrans QuestionState (fun a b => a.question_id ≤ b.question_id) :=
    ⟨fun a b c h1 h2 => le_trans h1 h2⟩
  have hsorted := List.sorted_insertionSort
    (fun a b : QuestionState => a.question_id ≤ b.question_id)
    ((getAllQuestions db c Pool.latent).filter (fun s => !s.hidden))
  exact List.Pairwise.map _ (fun a b h => h) hsorted

/-- Witness for the amended C4 on the concrete database. -/
theorem refill_runs_every_call_and_count_witness :
    WellFormedStates witnessDB ∧
    testNonHiddenCount witnessDB "c" ≤ witnessDB.config.test_pool_target_size ∧
    testNonHiddenCount (findNextQuestion witnessDB 5 0 0 0 "c").1 "c" =
      min witnessDB.config.test_pool_target_size
        (testNonHiddenCount witnessDB "c" + latentNonHiddenCount witnessDB "c") := by
  have hwf : WellFormedStates witnessDB :=
    (by decide : (witnessDB.questionStates.map stateKey).Nodup)
  exact ⟨hwf, by decide,
    (refill_runs_every_call_and_count witnessDB 5 0 0 0 "c" hwf (by decide)).2.2.2⟩

/-- find? only depends on the pointwise behaviour of its predicate. -/
theorem find?_ext {α : Type} {p p2 : α → Bool} (h : ∀ a, p a = p2 a) :
    ∀ l : List α, l.find? p = l.find? p2 := by
  intro l
  induction l with
  | nil => rfl
  | cons a l ih => cases hpa : p2 a <;> simp [List.find?_cons, h a, hpa, ih]

/-- A key-preserving rewrite of the state list leaves the key list alone. -/
theorem keys_map_eq {f : QuestionState → QuestionState}
    (hf : ∀ s, stateKey (f s) = stateKey s) (l : List QuestionState) :
    (l.map f).map stateKey = l.map stateKey := by
  rw [List.map_map]
  apply List.map_congr_left
  intro s _
  exact hf s

/-- The refill either leaves the state list alone or promotes exactly the
key prefix of the sorted non-hidden latent list. -/
theorem refill_questionStates_eq (db : MemDB) (now : Int) (c : String) :
    (refillTestPoolFromLatent db now c).1.questionStates = db.questionStates ∨
    (refillTestPoolFromLatent db now c).1.questionStates =
      db.questionStates.map (fun s =>
        if s.course_id = c ∧ s.question_id ∈
          (((((getAllQuestions db c Pool.latent).filter
            (fun s => !s.hidden)).insertionSort
              (fun a b => a.question_id ≤ b.question_id))).take
            (min ((((getAllQuestions db c Pool.latent).filter
              (fun s => !s.hidden)).insertionSort
                (fun a b => a.question_id ≤ b.question_id))).length
              (db.config.test_pool_target_size -
                ((getAllQuestions db c Pool.test).filter
                  (fun q => !q.hidden)).length))).map (fun q => q.question_id)
        then { s with pool := Pool.test } else s) := by
  by_cases h1 : ((getAllQuestions db c Pool.test).filter (fun q => !q.hidden)).length ≥
      db.config.test_pool_target_size
  · left
    simp only [refillTestPoolFromLatent]
    rw [if_pos h1]
  · by_cases h2 : ((getAllQuestions db c Pool.latent).filter
        (fun s => !s.hidden)).isEmpty = true
    · left
      simp only [refillTestPoolFromLatent]
      rw [if_neg h1, if_pos h2]
    · by_cases h3 : min ((((getAllQuestions db c Pool.latent).filter
          (fun s => !s.hidden)).insertionSort
            (fun a b => a.question_id ≤ b.question_id))).length
          (db.config.test_pool_target_size -
            ((getAllQuestions db c Pool.test).filter (fun q => !q.hidden)).length)
          = 0
      · left
        simp only [refillTestPoolFromLatent]
        rw [if_neg h1, if_neg h2, if_pos h3]
      · right
        have hr1 : (refillTestPoolFromLatent db now c).1.questionStates =
            (((((getAllQuestions db c Pool.latent).filter
              (fun s => !s.hidden)).insertionSort
                (fun a b => a.question_id ≤ b.question_id))).take
              (min ((((getAllQuestions db c Pool.latent).filter
                (fun s => !s.hidden)).insertionSort
                  (fun a b => a.question_id ≤ b.question_id))).length
                (db.config.test_pool_target_size -
                  ((getAllQuestions db c Pool.test).filter
                    (fun q => !q.hidden)).length))).foldl
              (fun st q => setPoolTest st c q.question_id) db.questionStates := by
          simp only [refillTestPoolFromLatent]
          rw [if_neg h1, if_neg h2, if_neg h3]
          cases hg : getCourseStats? db c <;> simp [hg, setCourseStats]
        rw [hr1, ← List.foldl_map, foldl_setPoolTest_eq_map]

/-- The refill either leaves the stats alone or moves toPromote units from
latent to test in the course's record, never touching question_count. -/
theorem refill_courseStats_eq (db : MemDB) (now : Int) (c : String) :
    (refillTestPoolFromLatent db now c).1.courseStats = db.courseStats ∨
    ∃ stats, ∃ t : Nat, getCourseStats? db c = some stats ∧
      (refillTestPoolFromLatent db now c).1.courseStats =
        db.courseStats.map (fun v => if v.id = c then
          { stats with latent_count := stats.latent_count - (t : Int),
                       test_count := stats.test_count + (t : Int) } else v) := by
  by_cases h1 : ((getAllQuestions db c Pool.test).filter (fun q => !q.hidden)).length ≥
      db.config.test_pool_target_size
  · left
    simp only [refillTestPoolFromLatent]
    rw [if_pos h1]
  · by_cases h2 : ((getAllQuestions db c Pool.latent).filter
        (fun s => !s.hidden)).isEmpty = true
    · left
      simp only [refillTestPoolFromLatent]
      rw [if_neg h1, if_pos h2]
    · by_cases h3 : min ((((getAllQuestions db c Pool.latent).filter
          (fun s => !s.hidden)).insertionSort
            (fun a b => a.question_id ≤ b.question_id))).length
          (db.config.test_pool_target_size -
            ((getAllQuestions db c Pool.test).filter (fun q => !q.hidden)).length)
          = 0
      · left
        simp only [refillTestPoolFromLatent]
        rw [if_neg h1, if_neg h2, if_pos h3]
      · cases hg : getCourseStats? db c with
        | none =>
          left
          simp only [refillTestPoolFromLatent]
          rw [if_neg h1, if_neg h2, if_neg h3]
          simp [hg]
        | some stats =>
          right
          refine ⟨stats, min ((((getAllQuestions db c Pool.latent).filter
            (fun s => !s.hidden)).insertionSort
              (fun a b => a.question_id ≤ b.question_id))).length
            (db.config.test_pool_target_size -
              ((getAllQuestions db c Pool.test).filter (fun q => !q.hidden)).length),
            rfl, ?_⟩
          simp only [refillTestPoolFromLatent]
          rw [if_neg h1, if_neg h2, if_neg h3, hg]
          simp only [setCourseStats]

/-- Promotion rewrites preserve the Map key of every state. -/
theorem stateKey_promote (c : String) (ks : List Nat) (s : QuestionState) :
    stateKey (if s.course_id = c ∧ s.question_id ∈ ks then { s with pool := Pool.test }
      else s) = stateKey s := by
  by_cases h : s.course_id = c ∧ s.question_id ∈ ks <;> simp [stateKey, h]

/-- The refill keeps the state keys unique. -/
theorem refill_preserves_wellFormed (db : MemDB) (now : Int) (c : String)
    (hwf : WellFormedStates db) :
    WellFormedStates (refillTestPoolFromLatent db now c).1 := by
  unfold WellFormedStates at hwf ⊢
  rcases refill_questionStates_eq db now c with heq | heq
  · rw [heq]; exact hwf
  · rw [heq, keys_map_eq (stateKey_promote c _)]; exact hwf

/-- The refill never touches a hidden state: its stored record for a
hidden key is unchanged. -/
theorem refill_preserves_hidden_state (db : MemDB) (now : Int) (c : String)
    (hwf : WellFormedStates db) {q : Nat} {s : QuestionState}
    (hfind : findState db c q = some s) (hhid : s.hidden = true) :
    findState (refillTestPoolFromLatent db now c).1 c q = some s := by
  rcases refill_questionStates_eq db now c with heq | heq
  · rw [findState] at hfind ⊢
    rw [heq]
    exact hfind
  · rw [findState] at hfind ⊢
    rw [heq, List.find?_map]
    have hext : ∀ t : QuestionState,
        ((fun u => decide (u.course_id = c ∧ u.question_id = q)) ∘
          (fun s => if s.course_id = c ∧ s.question_id ∈
            (((((getAllQuestions db c Pool.latent).filter
              (fun s => !s.hidden)).insertionSort
                (fun a b => a.question_id ≤ b.question_id))).take
              (min ((((getAllQuestions db c Pool.latent).filter
                (fun s => !s.hidden)).insertionSort
                  (fun a b => a.question_id ≤ b.question_id))).length
                (db.config.test_pool_target_size -
                  ((getAllQuestions db c Pool.test).filter
                    (fun q => !q.hidden)).length))).map (fun q => q.question_id)
            then { s with pool := Pool.test } else s)) t =
        (fun u => decide (u.course_id = c ∧ u.question_id = q)) t := by
      intro t
      by_cases h : t.course_id = c ∧ t.question_id ∈
          (((((getAllQuestions db c Pool.latent).filter
            (fun s => !s.hidden)).insertionSort
              (fun a b => a.question_id ≤ b.question_id))).take
            (min ((((getAllQuestions db c Pool.latent).filter
              (fun s => !s.hidden)).insertionSort
                (fun a b => a.question_id ≤ b.question_id))).length
              (db.config.test_pool_target_size -
                ((getAllQuestions db c Pool.test).filter
                  (fun q => !q.hidden)).length))).map (fun q => q.question_id)
      · simp only [Function.comp_apply, if_pos h]
      · simp only [Function.comp_apply, if_neg h]
    rw [find?_ext hext db.questionStates, hfind]
    have hp := List.find?_some hfind
    rw [decide_eq_true_eq] at hp
    by_cases hcond : s.course_id = c ∧ s.question_id ∈
        (((((getAllQuestions db c Pool.latent).filter
          (fun s => !s.hidden)).insertionSort
            (fun a b => a.question_id ≤ b.question_id))).take
          (min ((((getAllQuestions db c Pool.latent).filter
            (fun s => !s.hidden)).insertionSort
              (fun a b => a.question_id ≤ b.question_id))).length
            (db.config.test_pool_target_size -
              ((getAllQuestions db c Pool.test).filter
                (fun q => !q.hidden)).length))).map (fun q => q.question_id)
    · exfalso
      obtain ⟨s0, hs0, hc0, hk0, hp0, hh0⟩ :=
        (promotedKeys_facts db c hwf _).2 _ hcond.2
      have hss0 : s = s0 := stateKey_unique hwf (List.mem_of_find?_eq_some hfind) hs0
        (by simp [stateKey, hcond.1, hc0, hk0])
      rw [hss0, hh0] at hhid
      cases hhid
    · simp only [Option.map_some']
      rw [if_neg hcond]

/-- find? over a map whose function preserves the predicate. -/
theorem find?_map_id_pred {α : Type} {p : α → Bool} {f : α → α}
    (hpf : ∀ a, p (f a) = p a) :
    ∀ {l : List α} {a : α}, l.find? p = some a → (l.map f).find? p = some (f a) := by
  intro l
  induction l with
  | nil => intro a h; cases h
  | cons b l ih =>
    intro a h
    rw [List.map_cons]
    cases hpb : p b with
    | true =>
      rw [List.find?_cons_of_pos _ (by rw [hpf]; exact hpb)]
      rw [List.find?_cons_of_pos _ hpb] at h
      cases h
      rfl
    | false =>
      rw [List.find?_cons_of_neg _ (by rw [hpf]; simp [hpb])]
      rw [List.find?_cons_of_neg _ (by simp [hpb])] at h
      exact ih h

/-- The refill leaves every course's question_count untouched. -/
theorem refill_preserves_question_count (db : MemDB) (now : Int) (c : String)
    {stats : CourseStats} (hstats : getCourseStats? db c = some stats) :
    ∃ stats2, getCourseStats? (refillTestPoolFromLatent db now c).1 c = some stats2 ∧
      stats2.question_count = stats.question_count := by
  have hid : stats.id = c := by
    have h := List.find?_some (p := fun s : CourseStats => decide (s.id = c))
      (by rw [getCourseStats?] at hstats; exact hstats)
    simpa using h
  rcases refill_courseStats_eq db now c with heq | ⟨stats0, t, hg0, heq⟩
  · refine ⟨stats, ?_, rfl⟩
    rw [getCourseStats?] at hstats ⊢
    rw [heq]
    exact hstats
  · have hs0 : stats0 = stats := by
      rw [hg0] at hstats
      exact Option.some.inj hstats
    subst hs0
    rw [getCourseStats?] at hg0
    have hpf : ∀ a : CourseStats,
        (fun u : CourseStats => decide (u.id = c))
          ((fun w : CourseStats => if w.id = c then
            { stats0 with
              latent_count := stats0.latent_count - (t : Int)
              test_count := stats0.test_count + (t : Int) }
            else w) a) =
        (fun u : CourseStats => decide (u.id = c)) a := by
      intro a
      by_cases h : a.id = c <;> simp [h, hid]
    have hres := find?_map_id_pred hpf hg0
    refine ⟨(fun w : CourseStats => if w.id = c then
      { stats0 with
        latent_count := stats0.latent_count - (t : Int)
        test_count := stats0.test_count + (t : Int) }
      else w) stats0, ?_, ?_⟩
    · rw [getCourseStats?, heq]
      exact hres
    · simp [hid]

/-- hideQuestion, unfolded on a found state and found stats record. -/
theorem hideQuestion_eq (db : MemDB) (now : Int) (c : String) (q : Nat)
    (s : QuestionState) (stats : CourseStats)
    (hfind : findState db c q = some s) (hstats : getCourseStats? db c = some stats) :
    hideQuestion db now c q =
      if s.pool = Pool.test then
        (refillTestPoolFromLatent (hideQuestionBase db now c q s stats) now c).1
      else hideQuestionBase db now c q s stats := by
  rw [getCourseStats?] at hstats
  simp only [hideQuestion, hfind, getCourseStats?]
  rw [hstats]
  by_cases hp : s.pool = Pool.test
  · rw [if_pos hp, if_pos hp]
    rfl
  · rw [if_neg hp, if_neg hp]
    rfl

/-- A store whose key (c, q) record is hidden never serves question q of
course c: not through getAvailableQuestions and not through
findNextQuestion. -/
theorem hidden_excluded (db2 : MemDB) (c : String) (q : Nat)
    (hwf2 : WellFormedStates db2) {sh : QuestionState}
    (hfind2 : findState db2 c q = some sh) (hh : sh.hidden = true) :
    (∀ (now2 : Int) (p : Pool) (s2 : QuestionState),
      s2 ∈ getAvailableQuestions db2 now2 c p → s2.question_id ≠ q) ∧
    (∀ (now2 : Int) (r1 r2 r3 : Rat) (res : NextQuestionResult),
      (findNextQuestion db2 now2 r1 r2 r3 c).2 = some res →
      res.state.question_id ≠ q) := by
  have hkey : sh.course_id = c ∧ sh.question_id = q := by
    have hp := List.find?_some hfind2
    rwa [decide_eq_true_eq] at hp
  constructor
  · intro now2 p s2 hmem hq2
    have hc := mem_getAvailableQuestions.mp hmem
    have hs2 : s2 = sh := stateKey_unique hwf2 hc.1
      (List.mem_of_find?_eq_some hfind2)
      (by simp [stateKey, hc.2.1, hq2, hkey.1, hkey.2])
    rw [hs2, hh] at hc
    cases hc.2.2.2.1
  · intro now2 r1 r2 r3 res hres hq2
    obtain ⟨e, he, hmem⟩ := selectQuestion_state_mem
      (show selectQuestion ((refillTestPoolFromLatent db2 now2 c).1) now2 r1 r2 r3 c =
        some res from hres)
    rw [(poolEntries_spec he).1] at hmem
    have hwf3 := refill_preserves_wellFormed db2 now2 c hwf2
    have hfind3 := refill_preserves_hidden_state db2 now2 c hwf2 hfind2 hh
    have hc := mem_getAvailableQuestions.mp hmem
    have hs2 : res.state = sh := stateKey_unique hwf3 hc.1
      (List.mem_of_find?_eq_some hfind3)
      (by simp [stateKey, hc.2.1, hq2, hkey.1, hkey.2])
    rw [hs2, hh] at hc
    cases hc.2.2.2.1

/-- C7: hideQuestion sets the hidden flag of the question's stored state,
decrements its pool counter and the course's question_count by exactly
one, triggers an immediate Test-pool refill exactly when the question sat
in the Test pool, and afterwards the question can never again be returned
by getAvailableQuestions or findNextQuestion. -/
theorem hideQuestion_spec (db : MemDB) (now : Int) (c : String) (q : Nat)
    (hwf : WellFormedStates db) (s : QuestionState) (stats : CourseStats)
    (hfind : findState db c q = some s) (hstats : getCourseStats? db c = some stats) :
    findState (hideQuestion db now c q) c q = some { s with hidden := true } ∧
    (∃ stats2, getCourseStats? (hideQuestion db now c q) c = some stats2 ∧
      stats2.question_count = stats.question_count - 1) ∧
    (s.pool ≠ Pool.test →
      getCourseStats? (hideQuestion db now c q) c =
        some { adjustPoolCount stats s.pool (-1) with
          question_count := stats.question_count - 1 }) ∧
    (s.pool = Pool.test →
      hideQuestion db now c q =
        (refillTestPoolFromLatent (hideQuestionBase db now c q s stats) now c).1) ∧
    (∀ (now2 : Int) (p : Pool) (s2 : QuestionState),
      s2 ∈ getAvailableQuestions (hideQuestion db now c q) now2 c p →
      s2.question_id ≠ q) ∧
    (∀ (now2 : Int) (r1 r2 r3 : Rat) (res : NextQuestionResult),
      (findNextQuestion (hideQuestion db now c q) now2 r1 r2 r3 c).2 = some res →
      res.state.question_id ≠ q) := by
  have hkey : s.course_id = c ∧ s.question_id = q := by
    have hp := List.find?_some hfind
    rwa [decide_eq_true_eq] at hp
  have hid : stats.id = c := by
    have h := List.find?_some (p := fun v : CourseStats => decide (v.id = c))
      (by rw [getCourseStats?] at hstats; exact hstats)
    simpa using h
  -- facts about the intermediate store
  have hb_wf : WellFormedStates (hideQuestionBase db now c q s stats) := by
    unfold WellFormedStates at hwf ⊢
    show ((db.questionStates.map _).map stateKey).Nodup
    rw [keys_map_eq (fun t => ?_) db.questionStates]
    · exact hwf
    · by_cases h : t.course_id = c ∧ t.question_id = q <;> simp [stateKey, h]
  have hb_find : findState (hideQuestionBase db now c q s stats) c q =
      some { s with hidden := true } := by
    rw [findState] at hfind
    have hpf : ∀ t : QuestionState,
        (fun u : QuestionState => decide (u.course_id = c ∧ u.question_id = q))
          ((fun t : QuestionState =>
            if t.course_id = c ∧ t.question_id = q then { t with hidden := true }
            else t) t) =
        (fun u : QuestionState => decide (u.course_id = c ∧ u.question_id = q)) t := by
      intro t
      by_cases h : t.course_id = c ∧ t.question_id = q
      · simp only [if_pos h]
      · simp only [if_neg h]
    have hres := find?_map_id_pred hpf hfind
    rw [findState]
    show (db.questionStates.map _).find? _ = _
    rw [hres, if_pos hkey]
  have hb_stats : getCourseStats? (hideQuestionBase db now c q s stats) c =
      some { adjustPoolCount stats s.pool (-1) with
        question_count := stats.question_count - 1 } := by
    rw [getCourseStats?] at hstats
    have hpf : ∀ v : CourseStats,
        (fun u : CourseStats => decide (u.id = c))
          ((fun v : CourseStats =>
            if v.id = c then
              { adjustPoolCount stats s.pool (-1) with
                question_count := stats.question_count - 1 }
            else v) v) =
        (fun u : CourseStats => decide (u.id = c)) v := by
      intro v
      by_cases h : v.id = c
      · simp only [if_pos h]
        have := (adjustPoolCount_sum stats s.pool (-1)).2
        simp [h, hid]
        cases s.pool <;> simp [adjustPoolCount, hid]
      · simp only [if_neg h]
    have hres := find?_map_id_pred hpf hstats
    rw [getCourseStats?]
    show (db.courseStats.map _).find? _ = _
    rw [hres, if_pos hid]
  have heq := hideQuestion_eq db now c q s stats hfind hstats
  by_cases hpool : s.pool = Pool.test
  · rw [if_pos hpool] at heq
    have hfinal_wf : WellFormedStates (hideQuestion db now c q) := by
      rw [heq]
      exact refill_preserves_wellFormed _ now c hb_wf
    have hfinal_find : findState (hideQuestion db now c q) c q =
        some { s with hidden := true } := by
      rw [heq]
      exact refill_preserves_hidden_state _ now c hb_wf hb_find rfl
    have hqc : ∃ stats2, getCourseStats? (hideQuestion db now c q) c = some stats2 ∧
        stats2.question_count = stats.question_count - 1 := by
      rw [heq]
      exact refill_preserves_question_count _ now c hb_stats
    obtain ⟨stats2, hst2, hqc2⟩ := hqc
    have hexcl := hidden_excluded (hideQuestion db now c q) c q hfinal_wf
      hfinal_find rfl
    exact ⟨hfinal_find, ⟨stats2, hst2, hqc2⟩, fun h => absurd hpool h,
      fun _ => heq, hexcl.1, hexcl.2⟩
  · rw [if_neg hpool] at heq
    have hfinal_find : findState (hideQuestion db now c q) c q =
        some { s with hidden := true } := by rw [heq]; exact hb_find
    have hfinal_wf : WellFormedStates (hideQuestion db now c q) := by
      rw [heq]; exact hb_wf
    have hexcl := hidden_excluded (hideQuestion db now c q) c q hfinal_wf
      hfinal_find rfl
    refine ⟨hfinal_find,
      ⟨{ adjustPoolCount stats s.pool (-1) with
          question_count := stats.question_count - 1 }, by rw [heq]; exact hb_stats,
        rfl⟩,
      fun _ => by rw [heq]; exact hb_stats,
      fun h => absurd h hpool, hexcl.1, hexcl.2⟩

/-- Witness for C7: hiding the single Test question of the concrete
database. -/
theorem hideQuestion_spec_witness :
    WellFormedStates witnessDB ∧
    findState witnessDB "c" 1 = some witnessState ∧
    getCourseStats? witnessDB "c" = some ⟨"c", 1, 0, 1, 0, 0⟩ ∧
    findState (hideQuestion witnessDB 7 "c" 1) "c" 1 =
      some { witnessState with hidden := true } := by
  have hwf : WellFormedStates witnessDB :=
    (by decide : (witnessDB.questionStates.map stateKey).Nodup)
  have hfind : findState witnessDB "c" 1 = some witnessState := by decide
  have hstats : getCourseStats? witnessDB "c" = some ⟨"c", 1, 0, 1, 0, 0⟩ := by decide
  exact ⟨hwf, hfind, hstats,
    (hideQuestion_spec witnessDB 7 "c" 1 hwf witnessState ⟨"c", 1, 0, 1, 0, 0⟩
      hfind hstats).1⟩

/-- The Set-size duplicate test equals Nodup of the coerced strings. -/
theorem dedup_length_eq_iff (l : List String) :
    l.dedup.length = l.length ↔ l.Nodup := by
  constructor
  · intro h
    rw [← List.dedup_eq_self]
    exact (List.dedup_sublist l).eq_of_length h
  · intro h
    rw [List.dedup_eq_self.mpr h]

/-- Over string options the String coercion changes nothing about
duplicates. -/
theorem strs_nodup (opts : List JValue)
    (hstr : ∀ o ∈ opts, ∃ t, o = JValue.str t) :
    (opts.map jsToString).Nodup ↔ opts.Nodup := by
  induction opts with
  | nil => simp
  | cons o l ih =>
    obtain ⟨t, rfl⟩ := hstr o (List.mem_cons_self o l)
    rw [List.map_cons, List.nodup_cons, List.nodup_cons,
      ih (fun o ho => hstr o (List.mem_cons_of_mem _ ho))]
    have hmem : jsToString (JValue.str t) ∈ l.map jsToString ↔ JValue.str t ∈ l := by
      simp only [jsToString, List.mem_map]
      constructor
      · rintro ⟨o2, ho2, heq2⟩
        obtain ⟨t2, rfl⟩ := hstr o2 (List.mem_cons_of_mem _ ho2)
        simp only [jsToString] at heq2
        rw [heq2] at ho2
        exact ho2
      · intro h
        exact ⟨JValue.str t, h, rfl⟩
    rw [hmem]

/-- includes(correct_option) is membership of the string value. -/
theorem jsIncludesStr_iff (opts : List JValue) (co : String) :
    jsIncludesStr opts co = true ↔ JValue.str co ∈ opts := by
  rw [jsIncludesStr, List.any_eq_true]
  constructor
  · rintro ⟨o, ho, hmatch⟩
    cases o with
    | str t =>
      rw [decide_eq_true_eq] at hmatch
      rw [hmatch] at ho
      exact ho
    | null => cases hmatch
    | bool b => cases hmatch
    | num n => cases hmatch
    | arr xs => cases hmatch
    | obj fs => cases hmatch
  · intro h
    exact ⟨JValue.str co, h, by simp⟩

/-- On inputs whose options are string values, validateQuestion accepts
exactly the objects satisfying the spec's acceptance rule. -/
theorem validateQuestion_none_iff (j : JValue)
    (hstr : ∀ opts, jGet j "options" = JValue.arr opts →
      ∀ o ∈ opts, ∃ t, o = JValue.str t) :
    validateQuestion j = none ↔
      ((jsTypeofObject j = true ∧ jsIsNull j = false) ∧ specValidQuestion j) := by
  rw [validateQuestion]
  by_cases h0 : (!(jsTypeofObject j) || jsIsNull j) = true
  · rw [if_pos h0]
    simp only [Bool.or_eq_true, Bool.not_eq_true'] at h0
    constructor
    · intro h; cases h
    · rintro ⟨⟨hobj, hnn⟩, -⟩
      rcases h0 with h0 | h0
      · rw [hobj] at h0; cases h0
      · rw [hnn] at h0; cases h0
  · rw [if_neg h0]
    simp only [Bool.or_eq_true, Bool.not_eq_true', not_or] at h0
    obtain ⟨hobj, hnn⟩ := h0
    have hobj2 : jsTypeofObject j = true := by
      cases hq : jsTypeofObject j
      · exact absurd hq hobj
      · rfl
    have hnn2 : jsIsNull j = false := by
      cases hq : jsIsNull j
      · rfl
      · exact absurd hq hnn
    cases hq : jGet j "question" with
    | str qt =>
      simp only []
      by_cases htrim : jsTrim qt = ""
      · rw [if_pos htrim]
        constructor
        · intro h; cases h
        · rintro ⟨-, qt2, opts, co, ex, hq2, htrim2, -⟩
          rw [hq] at hq2
          cases hq2
          exact absurd htrim htrim2
      · rw [if_neg htrim]
        cases hop : jGet j "options" with
        | arr opts =>
          simp only []
          have hstr2 := hstr opts hop
          by_cases hlen : opts.length < 2
          · rw [if_pos hlen]
            constructor
            · intro h; cases h
            · rintro ⟨-, qt2, opts2, co, ex, -, -, hop2, hlen2, -⟩
              rw [hop] at hop2
              cases hop2
              omega
          · rw [if_neg hlen]
            by_cases hdup : (opts.map jsToString).dedup.length ≠ opts.length
            · rw [if_pos hdup]
              constructor
              · intro h; cases h
              · rintro ⟨-, qt2, opts2, co, ex, -, -, hop2, -, hnd, -⟩
                rw [hop] at hop2
                cases hop2
                exfalso
                apply hdup
                rw [← List.length_map opts jsToString]
                exact (dedup_length_eq_iff _).mpr ((strs_nodup opts hstr2).mpr hnd)
            · rw [if_neg hdup]
              cases hco : jGet j "correct_option" with
              | str co =>
                simp only []
                cases hex : jGet j "explanation" with
                | str ex =>
                  simp only []
                  by_cases hinc : jsIncludesStr opts co = true
                  · rw [if_pos hinc]
                    constructor
                    · intro _
                      refine ⟨⟨hobj2, hnn2⟩, qt, opts, co, ex, hq, htrim, hop,
                        by omega, ?_, hco,
                        (jsIncludesStr_iff opts co).mp hinc, hex⟩
                      rw [not_not] at hdup
                      rw [← List.length_map opts jsToString] at hdup
                      exact (strs_nodup opts hstr2).mp ((dedup_length_eq_iff _).mp hdup)
                    · intro _
                      rfl
                  · rw [if_neg hinc]
                    constructor
                    · intro h; cases h
                    · rintro ⟨-, qt2, opts2, co2, ex2, hq2, -, hop2, -, -, hco2, hmem, -⟩
                      rw [hop] at hop2
                      cases hop2
                      rw [hco] at hco2
                      cases hco2
                      exact (hinc ((jsIncludesStr_iff opts co).mpr hmem)).elim
                | null => ?_
                | bool b => ?_
                | num n => ?_
                | arr xs => ?_
                | obj fs => ?_
                all_goals
                  constructor
                  · intro h; cases h
                  · rintro ⟨-, qt2, opts2, co2, ex2, hq2, -, hop2, -, -, hco2, -, hex2⟩
                    rw [hex] at hex2
                    cases hex2
              | null => ?_
              | bool b => ?_
              | num n => ?_
              | arr xs => ?_
              | obj fs => ?_
              all_goals
                constructor
                · intro h; cases h
                · rintro ⟨-, qt2, opts2, co2, ex2, hq2, -, hop2, -, -, hco2, -, hex2⟩
                  rw [hco] at hco2
                  cases hco2
        | null => ?_
        | bool b => ?_
        | num n => ?_
        | str t => ?_
        | obj fs => ?_
        all_goals
          constructor
          · intro h; cases h
          · rintro ⟨-, qt2, opts2, co2, ex2, -, -, hop2, -⟩
            rw [hop] at hop2
            cases hop2
    | null => ?_
    | bool b => ?_
    | num n => ?_
    | arr xs => ?_
    | obj fs => ?_
    all_goals
      constructor
      · intro h; cases h
      · rintro ⟨-, qt2, opts2, co2, ex2, hq2, -⟩
        rw [hq] at hq2
        cases hq2

/-- A run of valid items is collected wholesale, with no errors. -/
theorem parseQuestionsLoop_all_valid (items : List JValue) :
    ∀ i : Nat, (∀ it ∈ items, validateQuestion it = none) →
      parseQuestionsLoop i items = (items, []) := by
  induction items with
  | nil => intro i _; rfl
  | cons item rest ih =>
    intro i hall
    have h1 : validateQuestion item = none := hall item (List.mem_cons_self _ _)
    have h2 := ih (i + 1) (fun it hit => hall it (List.mem_cons_of_mem _ hit))
    simp only [parseQuestionsLoop, h1, h2]

/-- One invalid entry among valid ones is skipped and reported once, at
its position. -/
theorem parseQuestionsLoop_one_bad (pre : List JValue) :
    ∀ (i : Nat) (bad : JValue) (e : String) (post : List JValue),
      (∀ it ∈ pre, validateQuestion it = none) →
      validateQuestion bad = some e →
      (∀ it ∈ post, validateQuestion it = none) →
      parseQuestionsLoop i (pre ++ bad :: post) =
        (pre ++ post, [⟨i + pre.length, e⟩]) := by
  induction pre with
  | nil =>
    intro i bad e post _ hbad hpost
    simp only [List.nil_append, parseQuestionsLoop, hbad,
      parseQuestionsLoop_all_valid post (i + 1) hpost, List.length_nil, Nat.add_zero]
  | cons p pre ih =>
    intro i bad e post hpre hbad hpost
    have h1 : validateQuestion p = none := hpre p (List.mem_cons_self _ _)
    have h2 := ih (i + 1) bad e post
      (fun it hit => hpre it (List.mem_cons_of_mem _ hit)) hbad hpost
    have h3 : i + 1 + pre.length = i + (pre.length + 1) := by omega
    simp only [List.cons_append, parseQuestionsLoop, List.append_eq, h1, h2,
      List.length_cons, h3]

/-- A successful createCourse appends the parsed questions, numbered from
1 by the enum index, and reports their number as total_loaded. -/
theorem createCourse_ok_shape (db : MemDB) (now : Int) (name : String) (json : JValue)
    (db2 : MemDB) (r : CourseCreationResult)
    (h : createCourse db now name json = Except.ok (db2, r)) :
    db2.questions = db.questions ++
      (parseQuestionsJson json).1.enum.map
        (fun p => toOriginalQuestion ("test-" ++ toString (db.uuidCounter + 1)) (p.1 + 1) p.2)
    ∧ r.total_loaded = (parseQuestionsJson json).1.length := by
  rw [createCourse] at h
  by_cases hd : db.courseMetadata.any (fun m => decide (m.name = name)) = true
  · rw [if_pos hd] at h; cases h
  · rw [if_neg hd] at h
    simp only [Except.ok.injEq, Prod.mk.injEq] at h
    obtain ⟨h1, h2⟩ := h
    constructor
    · rw [← h1]
    · rw [← h2]

/-- C8: on inputs whose options are strings, validateQuestion accepts
exactly the objects with non-empty question text, at least 2 unique
options, a correct_option exactly equal to one of the options, and an
explanation string; parseQuestionsJson keeps every question of an
all-valid array with no errors; with exactly one malformed entry it keeps
the others and reports one error carrying that entry's index and the
reason; and createCourse numbers the loaded questions sequentially
from 1. -/
theorem parseQuestionsJson_validation (j : JValue)
    (hstr : ∀ opts, jGet j "options" = JValue.arr opts →
      ∀ o ∈ opts, ∃ t, o = JValue.str t)
    (items pre post : List JValue) (bad : JValue) (e : String)
    (db db2 : MemDB) (now : Int) (name : String) (json : JValue)
    (r : CourseCreationResult) :
    (validateQuestion j = none ↔
      ((jsTypeofObject j = true ∧ jsIsNull j = false) ∧ specValidQuestion j))
    ∧ ((∀ it ∈ items, validateQuestion it = none) →
        parseQuestionsJson (JValue.arr items) = (items, ([] : List ValidationError)))
    ∧ ((∀ it ∈ pre, validateQuestion it = none) →
       validateQuestion bad = some e →
       (∀ it ∈ post, validateQuestion it = none) →
       parseQuestionsJson (JValue.arr (pre ++ bad :: post)) =
         (pre ++ post, [⟨pre.length, e⟩]))
    ∧ (createCourse db now name json = Except.ok (db2, r) →
       (db2.questions.drop db.questions.length).map (fun q => q.id) =
         List.range' 1 r.total_loaded) := by
  refine ⟨validateQuestion_none_iff j hstr, ?_, ?_, ?_⟩
  · intro hall
    exact parseQuestionsLoop_all_valid items 0 hall
  · intro hpre hbad hpost
    have h := parseQuestionsLoop_one_bad pre 0 bad e post hpre hbad hpost
    rw [Nat.zero_add] at h
    exact h
  · intro hcc
    obtain ⟨h1, h2⟩ := createCourse_ok_shape db now name json db2 r hcc
    rw [h1, List.drop_left, h2, List.map_map]
    have hfg : ((fun q : OriginalQuestion => q.id) ∘
        (fun p : Nat × JValue =>
          toOriginalQuestion ("test-" ++ toString (db.uuidCounter + 1)) (p.1 + 1) p.2)) =
        ((fun n => n + 1) ∘ Prod.fst) := rfl
    rw [hfg, ← List.map_map, List.enum_map_fst, List.range'_eq_map_range]
    exact List.map_congr_left (fun x _ => Nat.add_comm x 1)

/-- Witness for C8: the concrete three-entry array whose middle entry has
a single-element options array loses exactly that entry, reported at
index 1 with the array-size reason; the first entry's options are string
values. -/
theorem parseQuestionsJson_validation_witness :
    (∀ opts, jGet c8good "options" = JValue.arr opts →
      ∀ o ∈ opts, ∃ t, o = JValue.str t)
    ∧ parseQuestionsJson (JValue.arr [c8good, c8bad, c8good2]) =
        ([c8good, c8good2],
          [⟨1, "Options must be an array with at least 2 items"⟩]) := by
  have hstr : ∀ opts, jGet c8good "options" = JValue.arr opts →
      ∀ o ∈ opts, ∃ t, o = JValue.str t := by
    intro opts hop
    have h2 : JValue.arr [JValue.str "2", JValue.str "3"] = JValue.arr opts := hop
    injection h2 with h3
    subst h3
    intro o ho
    cases ho with
    | head => exact ⟨"2", rfl⟩
    | tail _ ho2 =>
      cases ho2 with
      | head => exact ⟨"3", rfl⟩
      | tail _ ho3 => cases ho3
  refine ⟨hstr, ?_⟩
  have h := parseQuestionsJson_validation c8good hstr [] [c8good] [c8good2] c8bad
    "Options must be an array with at least 2 items" emptyMemDB emptyMemDB 0 "c"
    JValue.null ⟨"", 0, 0, []⟩
  exact h.2.2.1 (by decide) (by decide) (by decide)

end Repeatrom
